import Mathlib

/-!
# ninjarmm_tocsv: a verification development

A shallow embedding of `ninjarmm_tocsv.go` (request signing, the API client,
the per-organization aggregation, the CSV report and the driver `main`),
followed by theorems about it.

Conventions of the embedding.

* A Go `string` is modelled by a Lean `String`: every string the program
  handles is text (JSON-decoded names and labels, the formatted date, paths
  and credentials), and `[]byte(s)` is its UTF-8 encoding, a list of
  naturals below 256.
* A Go `int` is modelled by an `Int`; it has 64 bits, as on the 64-bit
  platforms, and the increment of a counter wraps (`wrapInt`).
* A Go `map[string]int` is modelled by an association list with distinct
  keys; the order in which `range` visits a map is an explicit parameter
  (`MapOrder`), any permutation of the entries.
* The outside world (the clock and the HTTP server together with the JSON
  decoder of the standard library) is an explicit parameter (`World`).
* The functions of the Go standard library the program calls
  (`encoding/base64`, `crypto/sha1`, `crypto/hmac`, `fmt`) are modelled by
  executable definitions following their documented behaviour. Package fmt
  is modelled in full for the scanning of a format; of the formatting of an
  operand only the plain verbs the program uses are spelled out, the rest is
  a parameter (`OtherFormat`) that every theorem quantifies over.
-/

namespace NinjaRMM

/-! ## Bytes and strings -/

/-- A byte sequence: naturals below 256. -/
abbrev Bytes := List Nat

/-- UTF-8 encoding of one character (what a Go string stores for it). -/
def utf8EncodeChar (c : Char) : Bytes :=
  let v := c.toNat
  if v < 0x80 then [v]
  else if v < 0x800 then [0xC0 + v / 0x40, 0x80 + v % 0x40]
  else if v < 0x10000 then [0xE0 + v / 0x1000, 0x80 + (v / 0x40) % 0x40, 0x80 + v % 0x40]
  else [0xF0 + v / 0x40000, 0x80 + (v / 0x1000) % 0x40, 0x80 + (v / 0x40) % 0x40,
        0x80 + v % 0x40]

/-- The Go conversion `[]byte(s)`. -/
def goBytes (s : String) : Bytes :=
  s.data.flatMap utf8EncodeChar

/-! ## encoding/base64, `StdEncoding` -/

/-- The alphabet of `base64.StdEncoding`. -/
def encodeStd : List Char :=
  "ABCDEFGHIJKLMNOPQRSTUVWXYZabcdefghijklmnopqrstuvwxyz0123456789+/".data

/-- The character of a 6-bit value. -/
def b64Char (v : Nat) : Char :=
  encodeStd.getD (v % 64) 'A'

/-- The method `EncodeToString` of `base64.StdEncoding`, on the list of
characters: three bytes give four characters, a final group of one or two
bytes is padded with `=`. -/
def base64Chars : Bytes → List Char
  | [] => []
  | [a] => [b64Char (a / 4), b64Char (a % 4 * 16), '=', '=']
  | [a, b] => [b64Char (a / 4), b64Char (a % 4 * 16 + b / 16), b64Char (b % 16 * 4), '=']
  | a :: b :: c :: rest =>
    b64Char (a / 4) :: b64Char (a % 4 * 16 + b / 16) :: b64Char (b % 16 * 4 + c / 64)
      :: b64Char (c % 64) :: base64Chars rest

/-- The call `base64.StdEncoding.EncodeToString(src)`. -/
def base64Std (src : Bytes) : String :=
  String.mk (base64Chars src)

/-! ## crypto/sha1 -/

/-- Rotation to the left of a 32-bit word. -/
def rotl32 (x n : Nat) : Nat :=
  (x * 2 ^ n + x / 2 ^ (32 - n)) % 2 ^ 32

/-- Big-endian 32-bit word of four bytes. -/
def be32 (a b c d : Nat) : Nat :=
  ((a * 256 + b) * 256 + c) * 256 + d

/-- The four bytes of a 32-bit word, big-endian. -/
def word32Bytes (w : Nat) : Bytes :=
  [w / 2 ^ 24 % 256, w / 2 ^ 16 % 256, w / 2 ^ 8 % 256, w % 256]

/-- The eight bytes of a 64-bit length, big-endian. -/
def word64Bytes (w : Nat) : Bytes :=
  word32Bytes (w / 2 ^ 32 % 2 ^ 32) ++ word32Bytes (w % 2 ^ 32)

/-- The words of a byte sequence, four bytes each. -/
def bytesToWords : Bytes → List Nat
  | a :: b :: c :: d :: rest => be32 a b c d :: bytesToWords rest
  | _ => []

/-- The chaining value of SHA-1: the five words h0..h4. -/
structure Sha1State where
  h0 : Nat
  h1 : Nat
  h2 : Nat
  h3 : Nat
  h4 : Nat
deriving DecidableEq, Repr

/-- The initial chaining value. -/
def sha1Init : Sha1State :=
  ⟨0x67452301, 0xEFCDAB89, 0x98BADCFE, 0x10325476, 0xC3D2E1F0⟩

/-- The round function and constant of round `t`. -/
def sha1F (t b c d : Nat) : Nat :=
  if t < 20 then ((b &&& c) ||| ((b ^^^ 0xFFFFFFFF) &&& d)) + 0x5A827999
  else if t < 40 then (b ^^^ c ^^^ d) + 0x6ED9EBA1
  else if t < 60 then ((b &&& c) ||| (b &&& d) ||| (c &&& d)) + 0x8F1BBCDC
  else (b ^^^ c ^^^ d) + 0xCA62C1D6

/-- The rounds `t, t+1, ...` of one block, `n` of them; `w` holds the sixteen
most recent words of the message schedule, the word of round `t` first. -/
def sha1Rounds : Nat → Nat → List Nat → Sha1State → Sha1State
  | 0, _, _, s => s
  | n + 1, t, w, s =>
    let wt := w.getD 0 0
    let next := rotl32 (w.getD 13 0 ^^^ w.getD 8 0 ^^^ w.getD 2 0 ^^^ wt) 1
    let a := (rotl32 s.h0 5 + sha1F t s.h1 s.h2 s.h3 + s.h4 + wt) % 2 ^ 32
    sha1Rounds n (t + 1) (w.drop 1 ++ [next]) ⟨a, s.h0, rotl32 s.h1 30, s.h2, s.h3⟩

/-- The compression of one 64-byte block into the chaining value. -/
def sha1Block (s : Sha1State) (block : Bytes) : Sha1State :=
  let r := sha1Rounds 80 0 (bytesToWords block) s
  ⟨(s.h0 + r.h0) % 2 ^ 32, (s.h1 + r.h1) % 2 ^ 32, (s.h2 + r.h2) % 2 ^ 32,
   (s.h3 + r.h3) % 2 ^ 32, (s.h4 + r.h4) % 2 ^ 32⟩

/-- The compression of `n` consecutive 64-byte blocks. -/
def sha1Blocks : Nat → Sha1State → Bytes → Sha1State
  | 0, s, _ => s
  | n + 1, s, data => sha1Blocks n (sha1Block s (data.take 64)) (data.drop 64)

/-- The padding of a message: the byte 0x80, zero bytes up to 56 modulo 64,
and the bit length on eight bytes. -/
def sha1Pad (msg : Bytes) : Bytes :=
  msg ++ [0x80] ++ List.replicate ((119 - msg.length % 64) % 64) 0
    ++ word64Bytes (8 * msg.length % 2 ^ 64)

/-- The 20-byte digest of a message: `sha1.Sum`, which is also what a
`sha1.New()` hash returns from `Sum(nil)` after the message was written to it. -/
def sha1 (msg : Bytes) : Bytes :=
  let p := sha1Pad msg
  let s := sha1Blocks (p.length / 64) sha1Init p
  word32Bytes s.h0 ++ word32Bytes s.h1 ++ word32Bytes s.h2 ++ word32Bytes s.h3
    ++ word32Bytes s.h4

/-! ## crypto/hmac -/

/-- The block size of SHA-1 in bytes. -/
def sha1BlockSize : Nat := 64

/-- The state of the value returned by `hmac.New(sha1.New, key)`: the outer
pad, and the bytes written so far to the inner SHA-1 hash. -/
structure Hmac where
  opad : Bytes
  inner : Bytes
deriving DecidableEq, Repr

/-- The key block of `hmac.New`: a key longer than the block size is replaced
by its digest, then the key is copied into a zeroed block. -/
def hmacKeyBlock (key : Bytes) : Bytes :=
  let k := if key.length > sha1BlockSize then sha1 key else key
  k ++ List.replicate (sha1BlockSize - k.length) 0

/-- The call `hmac.New(sha1.New, key)`: both pads are derived from the key
block, and the inner pad is written to the inner hash. -/
def hmacNew (key : Bytes) : Hmac :=
  let block := hmacKeyBlock key
  { opad := block.map (fun b => b ^^^ 0x5c), inner := block.map (fun b => b ^^^ 0x36) }

/-- The method `Write` of an HMAC: the bytes go to the inner hash. -/
def Hmac.write (h : Hmac) (p : Bytes) : Hmac :=
  { h with inner := h.inner ++ p }

/-- The method `Sum` of an HMAC: the digest of the outer pad followed by the
inner digest, appended to `b`. -/
def Hmac.sum (h : Hmac) (b : Bytes) : Bytes :=
  b ++ sha1 (h.opad ++ sha1 h.inner)

/-- HMAC-SHA1 as RFC 2104 defines it: `H((K0 xor opad) || H((K0 xor ipad) || text))`,
where `K0` is the key, hashed first when longer than a block, padded with zero
bytes to the block size. -/
def specHmacSha1 (key text : Bytes) : Bytes :=
  let k := if key.length > 64 then sha1 key else key
  let k0 := k ++ List.replicate (64 - k.length) 0
  sha1 (k0.map (fun b => b ^^^ 0x5c) ++ sha1 (k0.map (fun b => b ^^^ 0x36) ++ text))

/-! ## The signer -/

/-- The function `getSignature` of the program. -/
def getSignature (secretAccessKey : String) (stringToSign : String) : String :=
  let data := base64Std (goBytes stringToSign)
  let _hash := hmacNew (goBytes secretAccessKey)
  let _hash := _hash.write (goBytes data)
  let sha := base64Std (_hash.sum [])
  sha

/-! ## Package fmt -/

/-- An operand of a formatting call: the Go values this program formats. -/
inductive Operand where
  /-- A `string`. -/
  | str (s : String)
  /-- An `int`. -/
  | int (n : Int)
  /-- A non-nil `error`: the name of its dynamic type and its `Error()` text. -/
  | err (type msg : String)
deriving DecidableEq, Repr

/-- The printer state of one verb: flags, width and precision. -/
structure Fmt where
  wid : Int := 0
  prec : Int := 0
  widPresent : Bool := false
  precPresent : Bool := false
  minus : Bool := false
  plus : Bool := false
  sharp : Bool := false
  space : Bool := false
  zero : Bool := false
  plusV : Bool := false
  sharpV : Bool := false
deriving DecidableEq, Repr

/-- The formatting by package fmt of an operand in the cases that are not
spelled out in `printArg` (flags, width or precision in force, or another
verb): it is taken as a parameter of the development. -/
abbrev OtherFormat := Fmt → Operand → Char → String

/-- Decimal text of an integer, as `%d` prints it. -/
def fmtDecimal (n : Int) : String :=
  if n < 0 then "-" ++ Nat.repr n.natAbs else Nat.repr n.toNat

/-- The function `printArg`: with no flag, width or precision, `%s` and `%v`
print a string as it is, `%d` and `%v` print an int in decimal, `%s` and `%v`
print the text of an error. -/
def printArg (other : OtherFormat) (f : Fmt) (arg : Operand) (verb : Char) : String :=
  if f = {} then
    match arg with
    | .str s => if verb = 's' ∨ verb = 'v' then s else other f arg verb
    | .int n => if verb = 'd' ∨ verb = 'v' then fmtDecimal n else other f arg verb
    | .err _ m => if verb = 's' ∨ verb = 'v' then m else other f arg verb
  else other f arg verb

/-- The type name `%T` and the `EXTRA` report print for an operand. -/
def Operand.typeName : Operand → String
  | .str _ => "string"
  | .int _ => "int"
  | .err t _ => t

/-- The loop of `parsenum`: a run of decimal digits; a value beyond a million
gives up and skips to the end of the text. -/
def parsenumLoop : List Char → Nat → Bool → Nat × Bool × List Char
  | [], num, isnum => (num, isnum, [])
  | c :: rest, num, isnum =>
    if '0' ≤ c ∧ c ≤ '9' then
      if num > 1000000 then (0, false, [])
      else parsenumLoop rest (num * 10 + (c.toNat - '0'.toNat)) true
    else (num, isnum, c :: rest)

/-- The function `parsenum` on the text from `start` to `end`: the number,
whether there was one, and the text left. -/
def parsenum (s : List Char) : Nat × Bool × List Char :=
  parsenumLoop s 0 false

/-- The function `parseArgNumber` on the text after an opening bracket: the
index, the text after the closing bracket, and whether `[n]` was well formed.
Without a closing bracket only the opening bracket is skipped. -/
def parseArgNumber (rest : List Char) : Int × List Char × Bool :=
  if rest.length + 1 < 3 then (0, rest, false)
  else if rest.contains ']' then
    let inside := rest.takeWhile (fun c => c != ']')
    let after := (rest.dropWhile (fun c => c != ']')).drop 1
    let (width, ok, left) := parsenum inside
    if !ok || !left.isEmpty then (0, after, false)
    else ((width : Int) - 1, after, true)
  else (0, rest, false)

/-- The state one verb of `doPrintf` works on. -/
structure VerbState where
  argNum : Nat
  reordered : Bool
  goodArgNum : Bool
  afterIndex : Bool
  rest : List Char
deriving Repr

/-- The method `argNumber`: an explicit argument index `[n]` at the head of
the text. -/
def argNumber (numArgs : Nat) (s : VerbState) : VerbState :=
  match s.rest with
  | '[' :: rest =>
    let (index, after, ok) := parseArgNumber rest
    if ok && decide (0 ≤ index) && decide (index < (numArgs : Int)) then
      { s with reordered := true, argNum := index.toNat, rest := after, afterIndex := true }
    else
      { s with reordered := true, goodArgNum := false, rest := after, afterIndex := ok }
  | _ => { s with afterIndex := false }

/-- The function `intFromArg`: the operand taken for a `*`. -/
def intFromArg (a : List Operand) (argNum : Nat) : Int × Bool × Nat :=
  match a.get? argNum with
  | none => (0, false, argNum)
  | some (.int n) => if n > 1000000 ∨ n < -1000000 then (0, false, argNum + 1)
                     else (n, true, argNum + 1)
  | some _ => (0, false, argNum + 1)

/-- The flags at the head of a verb. -/
def scanFlags : List Char → Fmt → Fmt × List Char
  | [], f => (f, [])
  | c :: rest, f =>
    if c = '#' then scanFlags rest { f with sharp := true }
    else if c = '0' then scanFlags rest { f with zero := !f.minus }
    else if c = '+' then scanFlags rest { f with plus := true }
    else if c = '-' then scanFlags rest { f with minus := true, zero := false }
    else if c = ' ' then scanFlags rest { f with space := true }
    else (f, c :: rest)

/-- The flags of the verbs `%v` and `%w`: `#` and `+` become `sharpV` and `plusV`. -/
def Fmt.forV (f : Fmt) (verb : Char) : Fmt :=
  if verb = 'v' ∨ verb = 'w' then
    { f with sharpV := f.sharp, sharp := false, plusV := f.plus, plus := false }
  else f

/-- What one verb leaves behind: the text written, the operand index, whether
an explicit index was met, the format text left, and whether the format loop
ends here. -/
structure VerbResult where
  out : String
  argNum : Nat
  reordered : Bool
  rest : List Char
  done : Bool
deriving Repr

/-- The width of a verb: `*` takes it from an operand, otherwise it is a run
of digits. Gives the text written, the flags and the state. -/
def scanWidth (a : List Operand) (f : Fmt) (s : VerbState) : String × Fmt × VerbState :=
  match s.rest with
  | '*' :: r =>
    let (wid, present, an) := intFromArg a s.argNum
    let out := if present then "" else "%!(BADWIDTH)"
    let f := if wid < 0 then { f with wid := -wid, widPresent := present, minus := true, zero := false }
             else { f with wid := wid, widPresent := present }
    (out, f, { s with rest := r, argNum := an, afterIndex := false })
  | _ =>
    let (wid, present, r) := parsenum s.rest
    ("", { f with wid := wid, widPresent := present },
      { s with rest := r, goodArgNum := s.goodArgNum && !(s.afterIndex && present) })

/-- The precision of a verb: a dot with at least one character after it
starts it (a dot that ends the format is left to be the verb character).
Gives the text written, the flags and the state. -/
def scanPrec (a : List Operand) (f : Fmt) (s : VerbState) : String × Fmt × VerbState :=
  match s.rest with
  | '.' :: c :: r =>
    let s := argNumber a.length
      { s with rest := c :: r, goodArgNum := s.goodArgNum && !s.afterIndex }
    match s.rest with
    | '*' :: r =>
      let (prec, present, an) := intFromArg a s.argNum
      let present := present && decide (0 ≤ prec)
      let prec := if prec < 0 then 0 else prec
      let out := if present then "" else "%!(BADPREC)"
      (out, { f with prec := prec, precPresent := present },
        { s with rest := r, argNum := an, afterIndex := false })
    | _ =>
      let (prec, _, r) := parsenum s.rest
      ("", { f with prec := prec, precPresent := true }, { s with rest := r })
  | _ => ("", f, s)

/-- The end of a verb, once flags, index, width and precision are read: the
verb character prints a percent sign, reports a bad index or a missing
operand, or prints its operand; a format that ends before it is reported.
`out` is the text the width and the precision wrote. -/
def printVerb (other : OtherFormat) (a : List Operand) (out : String) (f : Fmt)
    (s : VerbState) : VerbResult :=
  match s.rest with
  | [] =>
    { out := out ++ "%!(NOVERB)", argNum := s.argNum, reordered := s.reordered, rest := [],
      done := true }
  | verb :: r =>
    if verb = '%' then
      { out := out ++ "%", argNum := s.argNum, reordered := s.reordered, rest := r,
        done := false }
    else if !s.goodArgNum then
      { out := out ++ "%!" ++ String.mk [verb] ++ "(BADINDEX)", argNum := s.argNum,
        reordered := s.reordered, rest := r, done := false }
    else
      match a.get? s.argNum with
      | none =>
        { out := out ++ "%!" ++ String.mk [verb] ++ "(MISSING)", argNum := s.argNum,
          reordered := s.reordered, rest := r, done := false }
      | some arg =>
        { out := out ++ printArg other (f.forV verb) arg verb, argNum := s.argNum + 1,
          reordered := s.reordered, rest := r, done := false }

/-- The verb of the fast path of `doPrintf`: a lower-case letter right after
the flags, when an operand is left. -/
def fastVerb (a : List Operand) (argNum : Nat) : List Char → Option (Char × Operand × List Char)
  | [] => none
  | c :: r => if 'a' ≤ c ∧ c ≤ 'z' then (a.get? argNum).map (fun arg => (c, arg, r)) else none

/-- One verb of `doPrintf`, on the text after the percent sign. A plain
lower-case verb with an operand left prints it at once; otherwise an explicit
index, a width and a precision are read before the verb character. -/
def doVerb (other : OtherFormat) (a : List Operand) (argNum : Nat) (reordered : Bool)
    (afterPercent : List Char) : VerbResult :=
  let flags := scanFlags afterPercent {}
  match fastVerb a argNum flags.2 with
  | some (c, arg, r) =>
    { out := printArg other (flags.1.forV c) arg c, argNum := argNum + 1,
      reordered := reordered, rest := r, done := false }
  | none =>
    let s := argNumber a.length
      { argNum := argNum, reordered := reordered, goodArgNum := true, afterIndex := false,
        rest := flags.2 }
    let width := scanWidth a flags.1 s
    let prec := scanPrec a width.2.1 width.2.2
    let s := if prec.2.2.afterIndex then prec.2.2 else argNumber a.length prec.2.2
    printVerb other a (width.1 ++ prec.1) prec.2.1 s

/-- The report of the operands no verb used, printed when the format ends. -/
def extraArgs (other : OtherFormat) (a : List Operand) (argNum : Nat) (reordered : Bool) :
    String :=
  if !reordered && decide (argNum < a.length) then
    "%!(EXTRA " ++ String.intercalate ", "
      ((a.drop argNum).map (fun arg => arg.typeName ++ "=" ++ printArg other {} arg 'v')) ++ ")"
  else ""

/-- The format loop of `doPrintf`: the text up to the next percent sign is
copied, then one verb is handled; when the format ends the unused operands are
reported. Each turn takes at least one character of the format, so a fuel of
the length of the format plus one is never used up. -/
def doPrintfLoop (other : OtherFormat) (a : List Operand) :
    Nat → List Char → Nat → Bool → String → String
  | 0, _, _, _, buf => buf
  | fuel + 1, format, argNum, reordered, buf =>
    let buf := buf ++ String.mk (format.takeWhile (fun c => c != '%'))
    match format.dropWhile (fun c => c != '%') with
    | [] => buf ++ extraArgs other a argNum reordered
    | _ :: afterPercent =>
      let r := doVerb other a argNum reordered afterPercent
      if r.done then buf ++ r.out ++ extraArgs other a r.argNum r.reordered
      else doPrintfLoop other a fuel r.rest r.argNum r.reordered (buf ++ r.out)

/-- The method `doPrintf`: the text a format and its operands produce. -/
def doPrintf (other : OtherFormat) (format : String) (a : List Operand) : String :=
  doPrintfLoop other a (format.length + 1) format.data 0 false ""

/-- The function `fmt.Sprintf`. -/
def Sprintf (other : OtherFormat) (format : String) (a : List Operand) : String :=
  doPrintf other format a

/-- The text `fmt.Printf` writes to standard output. -/
def Printf (other : OtherFormat) (format : String) (a : List Operand) : String :=
  doPrintf other format a

/-- The function `getStringToSign` of the program. -/
def getStringToSign (other : OtherFormat) (httpMethod contentMD5 contentType requestDateTime
    canonicalPath : String) : String :=
  let stringToSign := Sprintf other "%s\n%s\n%s\n%s\n%s"
    [.str httpMethod, .str contentMD5, .str contentType, .str requestDateTime,
     .str canonicalPath]
  stringToSign

/-! ## Data model -/

/-- The type `Customer` of the program. -/
structure Customer where
  Name : String
  Description : String
  Id : Int
deriving DecidableEq, Repr

/-- The type `Device` of the program. -/
structure Device where
  Id : Int
  OrganizationId : Int
  LocationId : Int
  NodeClass : String
  NodeRoleId : Int
  RolePolicyId : Int
  ApprovalStatus : String
  Offline : Bool
  SystemName : String
  DnsName : String
  Created : Float
  LastContact : Float
  LastUpdate : Float
deriving Repr

/-- A device of which only the node class is given, every other field at its
zero value: what decoding the JSON object with the single member `nodeClass`
gives. -/
def Device.ofNodeClass (nodeClass : String) : Device :=
  { Id := 0, OrganizationId := 0, LocationId := 0, NodeClass := nodeClass, NodeRoleId := 0,
    RolePolicyId := 0, ApprovalStatus := "", Offline := false, SystemName := "", DnsName := "",
    Created := 0, LastContact := 0, LastUpdate := 0 }

/-! ## Go integers and maps -/

/-- The value of a Go `int` (64 bits, two's complement) for a mathematical
integer. -/
def wrapInt (x : Int) : Int :=
  (x + 2 ^ 63) % 2 ^ 64 - 2 ^ 63

/-- A `map[string]int`: its entries, with distinct keys. -/
abbrev Counters := List (String × Int)

/-- The read `m[key]`: the zero value when the key is absent. -/
def mapGet : Counters → String → Int
  | [], _ => 0
  | (k, v) :: rest, key => if k = key then v else mapGet rest key

/-- The assignment `m[key] = v`. -/
def mapSet : Counters → String → Int → Counters
  | [], key, v => [(key, v)]
  | (k, x) :: rest, key, v => if k = key then (k, v) :: rest else (k, x) :: mapSet rest key v

/-- The statement `m[key]++`. -/
def mapIncr (m : Counters) (key : String) : Counters :=
  mapSet m key (wrapInt (mapGet m key + 1))

/-- The order in which `range` visits the entries of a map: some permutation
of them, which may differ from one organization (numbered `k`) to the next. -/
structure MapOrder where
  order : Nat → Counters → Counters
  perm : ∀ k m, (order k m).Perm m

/-- The order that visits the entries as the association list holds them. -/
def MapOrder.asStored : MapOrder :=
  { order := fun _ m => m, perm := fun _ _ => List.Perm.refl _ }

/-- The order that visits the entries backwards. -/
def MapOrder.backwards : MapOrder :=
  { order := fun _ m => m.reverse, perm := fun _ m => List.reverse_perm m }

/-! ## The aggregation and the report rows -/

/-- The device loop of `main`: each device counts under its node class, `MAC`
counting as `WINDOWS_WORKSTATION`. -/
def countDevices (device : List Device) (counters : Counters) : Counters :=
  device.foldl (fun counters custdevice =>
    let _type := custdevice.NodeClass
    let _type := if _type = "MAC" then "WINDOWS_WORKSTATION" else _type
    mapIncr counters _type) counters

/-- The row loop of `main`: one formatted row is appended to the report for
each entry visited. -/
def appendRows (other : OtherFormat) (name : String) (visited : Counters) (output_csv : String) :
    String :=
  visited.foldl (fun output_csv entry =>
    output_csv ++ Sprintf other "%v, %v, %v\n" [.str name, .str entry.1, .int entry.2])
    output_csv

/-! ## The API client -/

/-- The variable `API_HOST`. -/
def API_HOST : String := "https://api.ninjarmm.com"

/-- A request as `callApi` sends it: method, URL and the two headers. -/
structure Request where
  method : String
  url : String
  authorization : String
  date : String
deriving DecidableEq, Repr

/-- An error value: the name of its dynamic type and its `Error()` text. -/
structure GoError where
  type : String
  msg : String
deriving DecidableEq, Repr

/-- What `dec.Decode(dst)` did with the body of a response: the content of
`dst` afterwards and the error returned, if any. The JSON decoder leaves `dst`
empty on a syntax error, and on a type mismatch goes on decoding and returns
the first mismatch, so that `dst` may hold elements although `err` is set. -/
structure Decoded (α : Type) where
  dst : α
  err : Option GoError
deriving Repr

/-- The answer to a request seen from `callApi`: `none` when `client.Do`
returns an error (the response is then nil), otherwise the decoding of the
body that came back. -/
abbrev Answer (α : Type) := Option (Decoded α)

/-- The outcome of a call of `callApi`: the request it sent and, unless it
panicked, its return value, the content of `dst` and the text it printed. -/
structure ApiCall (α : Type) where
  request : Request
  result : Option (Int × α × String)

/-- The function `callApi` of the program, `dst` pointing to a fresh nil
slice. `http.NewRequest` does not fail on the URLs of the program (the host
followed by a path of letters, digits, slashes and a sign). The error of
`client.Do` is not handled: `res` is then nil and evaluating `res.Body` for
the deferred `Close` panics. -/
def callApi {α : Type} (other : OtherFormat) (ACCESS_KEY_ID : String) (answer : Answer α)
    (url signature requestDateTime : String) : ApiCall α :=
  let req : Request :=
    { method := "GET", url := API_HOST ++ url,
      authorization := "NJ " ++ ACCESS_KEY_ID ++ ":" ++ signature, date := requestDateTime }
  match answer with
  | none => { request := req, result := none }
  | some decoded =>
    match decoded.err with
    | some err =>
      { request := req,
        result := some (1, decoded.dst, Printf other "Error: %v" [.err err.type err.msg]) }
    | none => { request := req, result := some (0, decoded.dst, "") }

/-! ## The driver -/

/-- The world `main` runs in: the environment variables, the successive
readings of the clock (already in UTC and formatted by `time.RFC1123Z`), the
answer to the organizations call and the answer to the devices call of the
organization numbered `k`. -/
structure World where
  getenv : String → String
  now : Nat → String
  organizations : Answer (List Customer)
  devices : Nat → Answer (List Device)

/-- The function `init` of the program: the two credentials, a placeholder
standing for an unset variable. -/
def init (getenv : String → String) : String × String :=
  let ACCESS_KEY_ID := getenv "NINJA_ACCESS_KEY_ID"
  let SECRET_ACCESS_KEY := getenv "NINJA_SECRET_ACCESS_KEY"
  let ACCESS_KEY_ID := if ACCESS_KEY_ID = "" then "<YOUR_ACCESS_KEY_ID>" else ACCESS_KEY_ID
  let SECRET_ACCESS_KEY :=
    if SECRET_ACCESS_KEY = "" then "<YOUR_SECRET_ACCESS_KEY>" else SECRET_ACCESS_KEY
  (ACCESS_KEY_ID, SECRET_ACCESS_KEY)

/-- The state of `main` while it runs: the requests sent so far, the text
printed so far, the report accumulated so far, and whether a panic ended the
run. -/
structure Progress where
  requests : List Request
  printed : String
  output_csv : String
  panicked : Bool
deriving Repr

/-- The customer loop of `main`, from the organization numbered `k` on. -/
def customerLoop (other : OtherFormat) (ord : MapOrder) (w : World)
    (ACCESS_KEY_ID SECRET_ACCESS_KEY : String) : List Customer → Nat → Progress → Progress
  | [], _, p => p
  | values :: rest, k, p =>
    let DEVICES_URL := Sprintf other "/v2/organization/%v/devices" [.int values.Id]
    let counters : Counters := []
    let requestDateTime := w.now (k + 1)
    let stringToSign := getStringToSign other "GET" "" "" requestDateTime DEVICES_URL
    let signature := getSignature SECRET_ACCESS_KEY stringToSign
    let call := callApi other ACCESS_KEY_ID (w.devices k) DEVICES_URL signature requestDateTime
    match call.result with
    | none => { p with requests := p.requests ++ [call.request], panicked := true }
    | some (ecode, device, printed) =>
      let printed := p.printed ++ printed ++
        (if ecode ≠ 0 then Printf other "Error: in callApi" [] else "")
      let counters := countDevices device counters
      let output_csv := appendRows other values.Name (ord.order k counters) p.output_csv
      customerLoop other ord w ACCESS_KEY_ID SECRET_ACCESS_KEY rest (k + 1)
        { requests := p.requests ++ [call.request], printed := printed,
          output_csv := output_csv, panicked := false }

/-- A run of `main`: the requests sent, the diagnostics printed before the
final emit, the report accumulated, and the text the final emit wrote, `none`
when a panic ended the run before it. -/
structure Run where
  requests : List Request
  diagnostics : String
  output_csv : String
  emitted : Option String
deriving Repr

/-- Everything a run wrote to standard output. -/
def Run.stdout (r : Run) : String :=
  r.diagnostics ++ r.emitted.getD ""

/-- The function `main` of the program. -/
def main (other : OtherFormat) (ord : MapOrder) (w : World) : Run :=
  let (ACCESS_KEY_ID, SECRET_ACCESS_KEY) := init w.getenv
  let CUSTOMERS_URL := "/v2/organizations"
  let output_csv := "Customer, DeviceType, Qty\n"
  let requestDateTime := w.now 0
  let stringToSign := getStringToSign other "GET" "" "" requestDateTime CUSTOMERS_URL
  let signature := getSignature SECRET_ACCESS_KEY stringToSign
  let call := callApi other ACCESS_KEY_ID w.organizations CUSTOMERS_URL signature requestDateTime
  match call.result with
  | none =>
    { requests := [call.request], diagnostics := "", output_csv := output_csv, emitted := none }
  | some (ecode, customer, printed) =>
    let printed := printed ++ (if ecode ≠ 0 then Printf other "Error: in callApi" [] else "")
    let p := customerLoop other ord w ACCESS_KEY_ID SECRET_ACCESS_KEY customer 0
      { requests := [call.request], printed := printed, output_csv := output_csv,
        panicked := false }
    { requests := p.requests, diagnostics := p.printed, output_csv := p.output_csv,
      emitted := if p.panicked then none else some (Printf other p.output_csv []) }

/-! ## Specification-level notions -/

/-- The label rewrite as the specification words it: `MAC` becomes
`WINDOWS_WORKSTATION`, every other label is kept. -/
def specRewrite (label : String) : String :=
  if label = "MAC" then "WINDOWS_WORKSTATION" else label

/-- The labels of a device list after the rewrite, in the order of the list. -/
def specLabels (device : List Device) : List String :=
  device.map (fun d => specRewrite d.NodeClass)

/-- The header line of the report. -/
def specHeader : String := "Customer, DeviceType, Qty\n"

/-- A data row of the report as the specification words it: the organization
name, the label and the count in decimal, separated by a comma and a blank,
ended by a newline. -/
def specRow (name : String) (entry : String × Int) : String :=
  name ++ ", " ++ entry.1 ++ ", " ++ fmtDecimal entry.2 ++ "\n"

/-- The texts of a list one after the other. -/
def specConcat (parts : List String) : String :=
  parts.foldr (fun part acc => part ++ acc) ""

/-- The block of an organization: the rows of the entries given, in order. -/
def specBlock (name : String) (rows : Counters) : String :=
  specConcat (rows.map (specRow name))

/-- The organizations the first call left in `customer`: none when the call
did not come back. -/
def specCustomers (w : World) : List Customer :=
  match w.organizations with
  | some decoded => decoded.dst
  | none => []

/-- The devices the devices call of the organization numbered `k` left in
`device`: none when the call did not come back. -/
def specDevices (w : World) (k : Nat) : List Device :=
  match w.devices k with
  | some decoded => decoded.dst
  | none => []

/-- The entries `range` visits for the organization numbered `k`. -/
def specVisited (ord : MapOrder) (w : World) (k : Nat) : Counters :=
  ord.order k (countDevices (specDevices w k) [])

/-- The diagnostics printed for an answer that came back: the error of the
decoder, printed by `callApi`, then the message of `main`; nothing when the
decoder returned no error. -/
def specDiagnostic {α : Type} (answer : Answer α) : String :=
  match answer with
  | some decoded =>
    match decoded.err with
    | some err => "Error: " ++ err.msg ++ "Error: in callApi"
    | none => ""
  | none => ""

/-- The path of the devices call of an organization. -/
def specDevicesPath (org : Customer) : String :=
  "/v2/organization/" ++ fmtDecimal org.Id ++ "/devices"

/-- The request of a GET of `path` at date `date`, signed as the specification
words it. -/
def specRequest (other : OtherFormat) (accessKeyId secretAccessKey date path : String) :
    Request :=
  { method := "GET", url := "https://api.ninjarmm.com" ++ path,
    authorization := "NJ " ++ accessKeyId ++ ":"
      ++ getSignature secretAccessKey (getStringToSign other "GET" "" "" date path),
    date := date }

/-- The bytes HMAC writes to the inner hash for a secret and a string to
sign: the inner pad, then the base64 text of the string to sign. -/
def specInner (secret stringToSign : String) : Bytes :=
  (hmacKeyBlock (goBytes secret)).map (fun b => b ^^^ 0x36)
    ++ goBytes (base64Std (goBytes stringToSign))

/-- The bytes HMAC writes to the outer hash: the outer pad, then the digest of
the inner bytes. -/
def specOuter (secret stringToSign : String) : Bytes :=
  (hmacKeyBlock (goBytes secret)).map (fun b => b ^^^ 0x5c)
    ++ sha1 (specInner secret stringToSign)

/-- A collision of SHA-1 on two given byte strings: they differ, both are
made of bytes, and they have the same digest. -/
def Sha1Collision (x y : Bytes) : Prop :=
  x ≠ y ∧ (∀ b ∈ x, b < 256) ∧ (∀ b ∈ y, b < 256) ∧ sha1 x = sha1 y

/-! ## Concrete inputs -/

/-- An instance of the parameter `OtherFormat`, for evaluation. -/
def otherUnused : OtherFormat := fun _ _ _ => ""

/-- The node classes `MAC, MAC, WINDOWS_WORKSTATION, LINUX_WORKSTATION`. -/
def exampleDevices : List Device :=
  [Device.ofNodeClass "MAC", Device.ofNodeClass "MAC", Device.ofNodeClass "WINDOWS_WORKSTATION",
   Device.ofNodeClass "LINUX_WORKSTATION"]

/-- A world with no credentials set and a clock that reads second `k` at the
reading numbered `k`, answering with the organizations and devices given. -/
def exampleWorld (organizations : Answer (List Customer))
    (devices : Nat → Answer (List Device)) : World :=
  { getenv := fun _ => "",
    now := fun k => "Mon, 02 Jan 2006 15:04:" ++ (if k < 10 then "0" else "") ++ Nat.repr k
      ++ " +0000",
    organizations := organizations,
    devices := devices }

/-- The mock API of the specification: the organization `Acme` with two
devices of node class `MAC`. -/
def acmeWorld : World :=
  exampleWorld (some ⟨[⟨"Acme", "", 1⟩], none⟩)
    (fun _ => some ⟨[Device.ofNodeClass "MAC", Device.ofNodeClass "MAC"], none⟩)

/-- The error the JSON decoder returns for the body
`[{"nodeClass":"MAC","id":"x"}]`: the member `id` is skipped and recorded, the
rest of the array is decoded. -/
def typeMismatch : GoError :=
  { type := "*json.UnmarshalTypeError",
    msg := "json: cannot unmarshal string into Go struct field Device.id of type int" }

/-- The organizations `Acme` and `Beta`; decoding the devices of `Acme` meets
a type mismatch after one device was decoded, `Beta` has one device. -/
def partialDecodeWorld : World :=
  exampleWorld (some ⟨[⟨"Acme", "", 1⟩, ⟨"Beta", "", 2⟩], none⟩)
    (fun k => if k = 0 then some ⟨[Device.ofNodeClass "MAC"], some typeMismatch⟩
              else some ⟨[Device.ofNodeClass "LINUX_WORKSTATION"], none⟩)

/-- The organizations `Acme` and `Beta`; the body of the devices answer for
`Acme` is not JSON (the decoder leaves the slice empty), `Beta` has one
device. -/
def syntaxErrorWorld : World :=
  exampleWorld (some ⟨[⟨"Acme", "", 1⟩, ⟨"Beta", "", 2⟩], none⟩)
    (fun k => if k = 0 then
        some ⟨[], some ⟨"*json.SyntaxError", "invalid character '<' looking for beginning of value"⟩⟩
      else some ⟨[Device.ofNodeClass "LINUX_WORKSTATION"], none⟩)

/-- The organizations `Acme` and `Beta`; the devices request for `Acme` fails
in transport, `Beta` has one device. -/
def transportFailureWorld : World :=
  exampleWorld (some ⟨[⟨"Acme", "", 1⟩, ⟨"Beta", "", 2⟩], none⟩)
    (fun k => if k = 0 then none else some ⟨[Device.ofNodeClass "LINUX_WORKSTATION"], none⟩)

/-- One organization whose name holds a percent sign, with one device. -/
def percentWorld : World :=
  exampleWorld (some ⟨[⟨"ACME 100%", "", 1⟩], none⟩)
    (fun _ => some ⟨[Device.ofNodeClass "MAC"], none⟩)

/-- A secret longer than the block of SHA-1. -/
def longSecret : String :=
  "ninja-secret-access-key-longer-than-one-sha1-block-of-64-bytes-000000871154"

/-- The twenty characters whose bytes are the SHA-1 digest of `longSecret`. -/
def digestSecret : String :=
  "L^\x7flN-,#mIw\x11H\x7b!pN\"\x03."

/-! ## Lemmas on Go integers and maps -/

theorem wrapInt_of_range (x : Int) (h0 : -2 ^ 63 ≤ x) (h1 : x < 2 ^ 63) : wrapInt x = x := by
  unfold wrapInt
  omega

theorem mapGet_mapSet (m : Counters) (k k2 : String) (v : Int) :
    mapGet (mapSet m k v) k2 = if k = k2 then v else mapGet m k2 := by
  induction m with
  | nil => simp [mapSet, mapGet]
  | cons e rest ih =>
    obtain ⟨a, x⟩ := e
    by_cases h : a = k
    · subst h
      by_cases h2 : a = k2 <;> simp [mapSet, mapGet, h2]
    · by_cases h2 : a = k2
      · subst h2
        have : ¬ k = a := fun h3 => h h3.symm
        simp [mapSet, mapGet, h, this]
      · simp [mapSet, mapGet, h, h2, ih]

theorem keys_mapSet (m : Counters) (k : String) (v : Int) :
    (mapSet m k v).map Prod.fst
      = if k ∈ m.map Prod.fst then m.map Prod.fst else m.map Prod.fst ++ [k] := by
  induction m with
  | nil => simp [mapSet]
  | cons e rest ih =>
    obtain ⟨a, x⟩ := e
    by_cases h : a = k
    · subst h
      simp [mapSet]
    · have h2 : ¬ k = a := fun h3 => h h3.symm
      by_cases h3 : k ∈ rest.map Prod.fst
      · simp only [mapSet, h, if_false, List.map_cons, ih, h3, if_true, List.mem_cons, or_true]
      · simp only [mapSet, h, if_false, List.map_cons, ih, h3, List.mem_cons, h2, or_self,
          List.cons_append]

theorem sum_mapSet (m : Counters) (k : String) (v : Int) :
    ((mapSet m k v).map Prod.snd).sum = (m.map Prod.snd).sum - mapGet m k + v := by
  induction m with
  | nil => simp [mapSet, mapGet]
  | cons e rest ih =>
    obtain ⟨a, x⟩ := e
    by_cases h : a = k
    · simp [mapSet, mapGet, h]
      omega
    · simp [mapSet, mapGet, h, ih]
      omega

theorem mem_iff_mapGet (m : Counters) (hm : (m.map Prod.fst).Nodup) (k : String) (v : Int) :
    (k, v) ∈ m ↔ k ∈ m.map Prod.fst ∧ mapGet m k = v := by
  induction m with
  | nil => simp
  | cons e rest ih =>
    obtain ⟨a, x⟩ := e
    simp only [List.map_cons, List.nodup_cons] at hm
    by_cases h : a = k
    · subst h
      have hnot : (a, v) ∉ rest := fun hmem => hm.1 (List.mem_map_of_mem Prod.fst hmem)
      simp [mapGet, hnot]
      exact eq_comm
    · have h2 : ¬ k = a := fun h3 => h h3.symm
      simp [mapGet, h, h2, ih hm.2]

theorem entries_nodup (m : Counters) (hm : (m.map Prod.fst).Nodup) : m.Nodup :=
  List.Nodup.of_map Prod.fst hm

theorem countDevices_eq_foldl (device : List Device) (m : Counters) :
    countDevices device m = (specLabels device).foldl mapIncr m := by
  unfold countDevices specLabels specRewrite
  rw [List.foldl_map]

/-- The map built from a list of labels shorter than 2^63: distinct keys, the
keys are the labels met, each value is the number of occurrences, and the
values add up to the number of labels. -/
theorem foldl_mapIncr_spec (ls : List String) (hlen : ls.length < 2 ^ 63) :
    ((ls.foldl mapIncr []).map Prod.fst).Nodup
      ∧ (∀ k, k ∈ (ls.foldl mapIncr []).map Prod.fst ↔ k ∈ ls)
      ∧ (∀ k, mapGet (ls.foldl mapIncr []) k = (ls.count k : Int))
      ∧ ((ls.foldl mapIncr []).map Prod.snd).sum = (ls.length : Int) := by
  induction ls using List.reverseRecOn with
  | nil => simp [mapGet]
  | append_singleton ls x ih =>
    have hlen2 : ls.length + 1 < 2 ^ 63 := by simpa using hlen
    obtain ⟨hnd, hkeys, hget, hsum⟩ := ih (by omega)
    have hcount : ls.count x ≤ ls.length := List.count_le_length x ls
    have hw : wrapInt (mapGet (ls.foldl mapIncr []) x + 1) = (ls.count x : Int) + 1 := by
      rw [hget x]
      apply wrapInt_of_range <;> omega
    have hstep : (ls ++ [x]).foldl mapIncr []
        = mapSet (ls.foldl mapIncr []) x ((ls.count x : Int) + 1) := by
      rw [List.foldl_append]
      simp only [List.foldl_cons, List.foldl_nil, mapIncr, hw]
    rw [hstep]
    refine ⟨?_, ?_, ?_, ?_⟩
    · rw [keys_mapSet]
      split
      · exact hnd
      · rename_i hx
        exact List.Nodup.append hnd (List.nodup_singleton x) (by simpa using hx)
    · intro k
      rw [keys_mapSet]
      split
      · rename_i hx
        have hx2 : x ∈ ls := (hkeys x).1 hx
        rw [hkeys k]
        simp only [List.mem_append, List.mem_singleton]
        constructor
        · exact Or.inl
        · rintro (h | h)
          · exact h
          · exact h ▸ hx2
      · simp [hkeys k]
    · intro k
      rw [mapGet_mapSet, hget k, List.count_append]
      by_cases h : x = k
      · subst h
        simp
      · simp [h, List.count_singleton]
    · rw [sum_mapSet, hsum, hget x]
      simp
      omega


/-! ## The aggregation -/

/-- Two maps with distinct keys, the same keys and the same values hold the
same entries. -/
theorem perm_of_same_entries (m m2 : Counters) (hm : (m.map Prod.fst).Nodup)
    (hm2 : (m2.map Prod.fst).Nodup)
    (hkeys : ∀ k, k ∈ m.map Prod.fst ↔ k ∈ m2.map Prod.fst)
    (hget : ∀ k, mapGet m k = mapGet m2 k) : m.Perm m2 := by
  rw [List.perm_ext_iff_of_nodup (entries_nodup m hm) (entries_nodup m2 hm2)]
  rintro ⟨k, v⟩
  rw [mem_iff_mapGet m hm, mem_iff_mapGet m2 hm2, hkeys k, hget k]

theorem specLabels_length (device : List Device) : (specLabels device).length = device.length := by
  simp [specLabels]

/-- The entries of the counters map of a device list (of length below 2^63):
no entry twice, and an entry for a label exactly when some device has it, with
the number of these devices. -/
theorem countDevices_entries (device : List Device) (hlen : device.length < 2 ^ 63) :
    (countDevices device []).Nodup
      ∧ ∀ L c, (L, c) ∈ countDevices device []
          ↔ c = ((specLabels device).count L : Int) ∧ c ≠ 0 := by
  have hl : (specLabels device).length < 2 ^ 63 := by rw [specLabels_length]; exact hlen
  obtain ⟨hnd, hkeys, hget, -⟩ := foldl_mapIncr_spec (specLabels device) hl
  rw [← countDevices_eq_foldl] at hnd hkeys hget
  refine ⟨entries_nodup _ hnd, ?_⟩
  intro L c
  rw [mem_iff_mapGet _ hnd, hkeys L, hget L, ← List.count_pos_iff]
  constructor
  · rintro ⟨h1, h2⟩
    exact ⟨h2.symm, by omega⟩
  · rintro ⟨h1, h2⟩
    exact ⟨by omega, h1.symm⟩

/-- C3. For a device list (a Go slice, of length below 2^63) the counters map
built by the device loop from an empty map has distinct keys, maps each label
to the number of devices whose rewritten node class is that label, holds
exactly the labels of at least one device, and never holds the key `MAC`;
the rewrite sends `MAC` to `WINDOWS_WORKSTATION` and keeps every other
string, `mac`, ` MAC` and the empty string among them. -/
theorem countDevices_counts (device : List Device) (hlen : device.length < 2 ^ 63) :
    ((countDevices device []).map Prod.fst).Nodup
      ∧ (∀ L, mapGet (countDevices device []) L = ((specLabels device).count L : Int))
      ∧ (∀ L, L ∈ (countDevices device []).map Prod.fst ↔ 0 < (specLabels device).count L)
      ∧ (∀ L c, (L, c) ∈ countDevices device []
          ↔ c = ((specLabels device).count L : Int) ∧ 0 < (specLabels device).count L)
      ∧ "MAC" ∉ (countDevices device []).map Prod.fst
      ∧ specRewrite "MAC" = "WINDOWS_WORKSTATION"
      ∧ (∀ s, s ≠ "MAC" → specRewrite s = s)
      ∧ specRewrite "mac" = "mac" ∧ specRewrite " MAC" = " MAC" ∧ specRewrite "" = "" := by
  have hl : (specLabels device).length < 2 ^ 63 := by rw [specLabels_length]; exact hlen
  obtain ⟨hnd, hkeys, hget, -⟩ := foldl_mapIncr_spec (specLabels device) hl
  rw [← countDevices_eq_foldl] at hnd hkeys hget
  have hkeys2 : ∀ L, L ∈ (countDevices device []).map Prod.fst
      ↔ 0 < (specLabels device).count L := by
    intro L
    rw [hkeys L, List.count_pos_iff]
  refine ⟨hnd, hget, hkeys2, ?_, ?_, by decide, ?_, by decide, by decide, by decide⟩
  · intro L c
    rw [mem_iff_mapGet _ hnd, hkeys2 L, hget L]
    constructor
    · rintro ⟨h1, h2⟩
      exact ⟨h2.symm, h1⟩
    · rintro ⟨h1, h2⟩
      exact ⟨h2, h1.symm⟩
  · rw [hkeys "MAC"]
    unfold specLabels
    simp only [List.mem_map, not_exists, not_and]
    intro d _ h
    unfold specRewrite at h
    split at h
    · exact absurd h (by decide)
    · rename_i hne
      exact hne h
  · intro s hs
    simp [specRewrite, hs]

/-- The node classes `MAC, MAC, WINDOWS_WORKSTATION, LINUX_WORKSTATION` give
exactly the map with `WINDOWS_WORKSTATION` at 3 and `LINUX_WORKSTATION` at 1. -/
theorem countDevices_counts_witness :
    exampleDevices.length < 2 ^ 63
      ∧ countDevices exampleDevices []
          = [("WINDOWS_WORKSTATION", 3), ("LINUX_WORKSTATION", 1)]
      ∧ mapGet (countDevices exampleDevices []) "WINDOWS_WORKSTATION" = 3
      ∧ "MAC" ∉ (countDevices exampleDevices []).map Prod.fst :=
  ⟨by decide, by decide,
   ((countDevices_counts exampleDevices (by decide)).2.1 "WINDOWS_WORKSTATION").trans (by decide),
   (countDevices_counts exampleDevices (by decide)).2.2.2.2.1⟩

/-- C8. For a device list (of length below 2^63) the values of the counters
map add up to the length of the list, and every value stored is at least 1. -/
theorem countDevices_sum (device : List Device) (hlen : device.length < 2 ^ 63) :
    ((countDevices device []).map Prod.snd).sum = (device.length : Int)
      ∧ ∀ e ∈ countDevices device [], 1 ≤ e.2 := by
  have hl : (specLabels device).length < 2 ^ 63 := by rw [specLabels_length]; exact hlen
  obtain ⟨hnd, hkeys, hget, hsum⟩ := foldl_mapIncr_spec (specLabels device) hl
  rw [← countDevices_eq_foldl] at hnd hkeys hget hsum
  refine ⟨by rw [hsum, specLabels_length], ?_⟩
  rintro ⟨k, v⟩ he
  obtain ⟨h1, h2⟩ := (mem_iff_mapGet _ hnd k v).1 he
  have h3 : 0 < (specLabels device).count k := List.count_pos_iff.2 ((hkeys k).1 h1)
  rw [hget k] at h2
  show 1 ≤ v
  omega

/-- The four example devices: the values 3 and 1 add up to 4. -/
theorem countDevices_sum_witness :
    exampleDevices.length < 2 ^ 63
      ∧ ((countDevices exampleDevices []).map Prod.snd).sum = 4 :=
  ⟨by decide, (countDevices_sum exampleDevices (by decide)).1⟩

/-- C9. The device loop does not depend on the order of the devices: for a
device list (of length below 2^63) and a permutation of it, the two counters
maps have the same value at every label, the same keys, and the same entries. -/
theorem countDevices_perm (l l2 : List Device) (hperm : l2.Perm l) (hlen : l.length < 2 ^ 63) :
    (∀ L, mapGet (countDevices l2 []) L = mapGet (countDevices l []) L)
      ∧ (∀ L, L ∈ (countDevices l2 []).map Prod.fst ↔ L ∈ (countDevices l []).map Prod.fst)
      ∧ (countDevices l2 []).Perm (countDevices l []) := by
  have hl : (specLabels l).length < 2 ^ 63 := by rw [specLabels_length]; exact hlen
  have hl2 : (specLabels l2).length < 2 ^ 63 := by
    rw [specLabels_length, hperm.length_eq]; exact hlen
  have hp : (specLabels l2).Perm (specLabels l) := hperm.map _
  obtain ⟨hnd, hkeys, hget, -⟩ := foldl_mapIncr_spec (specLabels l) hl
  obtain ⟨hnd2, hkeys2, hget2, -⟩ := foldl_mapIncr_spec (specLabels l2) hl2
  rw [← countDevices_eq_foldl] at hnd hkeys hget hnd2 hkeys2 hget2
  have h1 : ∀ L, mapGet (countDevices l2 []) L = mapGet (countDevices l []) L := by
    intro L
    rw [hget L, hget2 L, hp.count_eq L]
  have h2 : ∀ L, L ∈ (countDevices l2 []).map Prod.fst
      ↔ L ∈ (countDevices l []).map Prod.fst := by
    intro L
    rw [hkeys L, hkeys2 L]
    exact hp.mem_iff
  exact ⟨h1, h2, perm_of_same_entries _ _ hnd2 hnd h2 h1⟩

/-- The example devices and the same devices backwards: the maps list their
entries in another order and agree at `WINDOWS_WORKSTATION`. -/
theorem countDevices_perm_witness :
    exampleDevices.reverse.Perm exampleDevices
      ∧ exampleDevices.length < 2 ^ 63
      ∧ countDevices exampleDevices.reverse []
          = [("LINUX_WORKSTATION", 1), ("WINDOWS_WORKSTATION", 3)]
      ∧ mapGet (countDevices exampleDevices.reverse []) "WINDOWS_WORKSTATION"
          = mapGet (countDevices exampleDevices []) "WINDOWS_WORKSTATION" :=
  ⟨List.reverse_perm _, by decide, by decide,
   (countDevices_perm exampleDevices exampleDevices.reverse (List.reverse_perm _)
      (by decide)).1 "WINDOWS_WORKSTATION"⟩

/-! ## The fuel of the format loop -/

theorem parsenumLoop_length (s : List Char) (num : Nat) (isnum : Bool) :
    (parsenumLoop s num isnum).2.2.length ≤ s.length := by
  induction s generalizing num isnum with
  | nil => simp [parsenumLoop]
  | cons c rest ih =>
    unfold parsenumLoop
    split
    · split
      · simp
      · exact Nat.le_succ_of_le (ih _ _)
    · simp

theorem parseArgNumber_length (rest : List Char) :
    (parseArgNumber rest).2.1.length ≤ rest.length := by
  have hafter : ((rest.dropWhile (fun c => c != ']')).drop 1).length ≤ rest.length := by
    rw [List.length_drop]
    exact Nat.le_trans (Nat.sub_le _ _) (List.dropWhile_sublist _).length_le
  unfold parseArgNumber
  split
  · simp
  · split
    · simp only []
      split <;> exact hafter
    · simp

theorem argNumber_length (numArgs : Nat) (s : VerbState) :
    (argNumber numArgs s).rest.length ≤ s.rest.length := by
  unfold argNumber
  split
  · rename_i rest heq
    have h := parseArgNumber_length rest
    rw [heq]
    simp only []
    split <;> exact Nat.le_succ_of_le h
  · simp

theorem scanFlags_length (s : List Char) (f : Fmt) :
    (scanFlags s f).2.length ≤ s.length := by
  induction s generalizing f with
  | nil => simp [scanFlags]
  | cons c rest ih =>
    unfold scanFlags
    repeat (first | split | exact Nat.le_succ_of_le (ih _) | simp)

theorem scanWidth_length (a : List Operand) (f : Fmt) (s : VerbState) :
    (scanWidth a f s).2.2.rest.length ≤ s.rest.length := by
  unfold scanWidth
  split
  · rename_i r heq
    rw [heq]
    simp
  · simp only []
    exact parsenumLoop_length _ _ _

theorem scanPrec_length (a : List Operand) (f : Fmt) (s : VerbState) :
    (scanPrec a f s).2.2.rest.length ≤ s.rest.length := by
  unfold scanPrec
  split
  · rename_i c r heq
    rw [heq]
    have h1 := argNumber_length a.length
      { s with rest := c :: r, goodArgNum := s.goodArgNum && !s.afterIndex }
    simp only [] at h1 ⊢
    split
    · rename_i r2 heq2
      rw [heq2] at h1
      simp only [List.length_cons] at h1 ⊢
      omega
    · have h2 := parsenumLoop_length (argNumber a.length
        { s with rest := c :: r, goodArgNum := s.goodArgNum && !s.afterIndex }).rest 0 false
      exact Nat.le_trans (Nat.le_trans h2 h1) (Nat.le_succ _)
  · simp

theorem printVerb_length (other : OtherFormat) (a : List Operand) (out : String) (f : Fmt)
    (s : VerbState) : (printVerb other a out f s).rest.length ≤ s.rest.length := by
  unfold printVerb
  split
  · simp
  · rename_i verb r heq
    rw [heq]
    repeat' split
    all_goals simp

theorem fastVerb_length (a : List Operand) (argNum : Nat) (text : List Char) (c : Char)
    (arg : Operand) (r : List Char) (h : fastVerb a argNum text = some (c, arg, r)) :
    r.length ≤ text.length := by
  cases text with
  | nil => simp [fastVerb] at h
  | cons c2 r2 =>
    simp only [fastVerb] at h
    split at h
    · simp only [Option.map_eq_some', Prod.mk.injEq] at h
      obtain ⟨_, _, _, _, h3⟩ := h
      simp [← h3]
    · simp at h

theorem doVerb_length (other : OtherFormat) (a : List Operand) (argNum : Nat) (reordered : Bool)
    (afterPercent : List Char) :
    (doVerb other a argNum reordered afterPercent).rest.length ≤ afterPercent.length := by
  have hflags := scanFlags_length afterPercent {}
  unfold doVerb
  simp only []
  split
  · rename_i c arg r heq
    exact Nat.le_trans (fastVerb_length a argNum _ c arg r heq) hflags
  · refine Nat.le_trans (printVerb_length _ _ _ _ _) ?_
    have h1 := argNumber_length a.length
      { argNum := argNum, reordered := reordered, goodArgNum := true, afterIndex := false,
        rest := (scanFlags afterPercent {}).2 }
    have h2 := scanWidth_length a (scanFlags afterPercent {}).1 (argNumber a.length
      { argNum := argNum, reordered := reordered, goodArgNum := true, afterIndex := false,
        rest := (scanFlags afterPercent {}).2 })
    have h3 := scanPrec_length a (scanWidth a (scanFlags afterPercent {}).1 (argNumber a.length
      { argNum := argNum, reordered := reordered, goodArgNum := true, afterIndex := false,
        rest := (scanFlags afterPercent {}).2 })).2.1
      (scanWidth a (scanFlags afterPercent {}).1 (argNumber a.length
      { argNum := argNum, reordered := reordered, goodArgNum := true, afterIndex := false,
        rest := (scanFlags afterPercent {}).2 })).2.2
    have h123 := Nat.le_trans (Nat.le_trans (Nat.le_trans h3 h2) h1) hflags
    split
    · exact h123
    · exact Nat.le_trans (argNumber_length _ _) h123

/-- The format loop does not run out of fuel: any fuel above the length of the
format gives the text that the fuel of `doPrintf` gives. -/
theorem doPrintfLoop_fuel (other : OtherFormat) (a : List Operand) (fuel : Nat) :
    ∀ (format : List Char) (argNum : Nat) (reordered : Bool) (buf : String),
      format.length < fuel →
      doPrintfLoop other a fuel format argNum reordered buf
        = doPrintfLoop other a (format.length + 1) format argNum reordered buf := by
  induction fuel using Nat.strong_induction_on with
  | _ fuel ih =>
    intro format argNum reordered buf hlt
    cases fuel with
    | zero => omega
    | succ n =>
      unfold doPrintfLoop
      split
      · rfl
      · rename_i afterPercent heq
        have hdrop : (format.dropWhile (fun c => c != '%')).length ≤ format.length :=
          (List.dropWhile_sublist _).length_le
        rw [heq] at hdrop
        simp only [List.length_cons] at hdrop
        have hrest := doVerb_length other a argNum reordered afterPercent
        simp only []
        split
        · rfl
        · rw [ih n (Nat.lt_succ_self n) _ _ _ _ (by omega),
            ih format.length (by omega) _ _ _ _ (by omega)]

/-- The text of `doPrintf` is the text of the format loop with any larger fuel. -/
theorem doPrintf_fuel (other : OtherFormat) (format : String) (a : List Operand) (extra : Nat) :
    doPrintfLoop other a (format.length + 1 + extra) format.data 0 false ""
      = doPrintf other format a := by
  unfold doPrintf
  have h : format.data.length < format.length + 1 + extra := by
    show format.data.length < format.data.length + 1 + extra
    omega
  exact doPrintfLoop_fuel other a _ _ _ _ _ h

/-! ## Package fmt on the formats of the program -/

theorem Sprintf_stringToSign (other : OtherFormat) (m c t d p : String) :
    Sprintf other "%s\n%s\n%s\n%s\n%s" [.str m, .str c, .str t, .str d, .str p]
      = m ++ "\n" ++ c ++ "\n" ++ t ++ "\n" ++ d ++ "\n" ++ p := by
  simp [Sprintf, doPrintf, doPrintfLoop, doVerb, fastVerb, scanFlags, printArg, Fmt.forV, extraArgs]

theorem Sprintf_devicesUrl (other : OtherFormat) (n : Int) :
    Sprintf other "/v2/organization/%v/devices" [.int n]
      = "/v2/organization/" ++ fmtDecimal n ++ "/devices" := by
  simp [Sprintf, doPrintf, doPrintfLoop, doVerb, fastVerb, scanFlags, printArg, Fmt.forV, extraArgs]

theorem Sprintf_row (other : OtherFormat) (name label : String) (count : Int) :
    Sprintf other "%v, %v, %v\n" [.str name, .str label, .int count]
      = specRow name (label, count) := by
  simp [Sprintf, doPrintf, doPrintfLoop, doVerb, fastVerb, scanFlags, printArg, Fmt.forV, extraArgs,
    specRow]

theorem Printf_error (other : OtherFormat) (t msg : String) :
    Printf other "Error: %v" [.err t msg] = "Error: " ++ msg := by
  simp [Printf, doPrintf, doPrintfLoop, doVerb, fastVerb, scanFlags, printArg, Fmt.forV, extraArgs]

theorem Printf_inCallApi (other : OtherFormat) :
    Printf other "Error: in callApi" [] = "Error: in callApi" := by
  simp [Printf, doPrintf, doPrintfLoop, extraArgs]

/-- A format without operands and without a percent sign is printed as it is. -/
theorem Printf_of_no_percent (other : OtherFormat) (text : String)
    (h : '%' ∉ text.data) : Printf other text [] = text := by
  have h1 : text.data.takeWhile (fun c => c != '%') = text.data := by
    rw [List.takeWhile_eq_self_iff]
    intro c hc
    have : c ≠ '%' := fun h2 => h (h2 ▸ hc)
    simpa using this
  have h2 : text.data.dropWhile (fun c => c != '%') = [] := by
    rw [List.dropWhile_eq_nil_iff]
    intro c hc
    have : c ≠ '%' := fun h2 => h (h2 ▸ hc)
    simpa using this
  simp [Printf, doPrintf, doPrintfLoop, h1, h2, extraArgs]

theorem getStringToSign_eq (other : OtherFormat) (m c t d p : String) :
    getStringToSign other m c t d p = m ++ "\n" ++ c ++ "\n" ++ t ++ "\n" ++ d ++ "\n" ++ p := by
  unfold getStringToSign
  exact Sprintf_stringToSign other m c t d p

/-- C2. The string to sign is the five fields in order with one newline between
two neighbours and none before or after; the request for the organizations at
the reference date gives the text with two empty lines in the middle. -/
theorem getStringToSign_spec :
    (∀ (other : OtherFormat) (method contentMD5 contentType date path : String),
      getStringToSign other method contentMD5 contentType date path
        = method ++ "\n" ++ contentMD5 ++ "\n" ++ contentType ++ "\n" ++ date ++ "\n" ++ path)
      ∧ (∀ other : OtherFormat,
          getStringToSign other "GET" "" "" "Mon, 02 Jan 2006 15:04:05 -0700" "/v2/organizations"
            = "GET\n\n\nMon, 02 Jan 2006 15:04:05 -0700\n/v2/organizations") := by
  refine ⟨fun other m c t d p => ?_, fun other => ?_⟩
  · unfold getStringToSign
    exact Sprintf_stringToSign other m c t d p
  · unfold getStringToSign
    rw [Sprintf_stringToSign]
    decide

/-! ## The signer -/

theorem sha1_length (msg : Bytes) : (sha1 msg).length = 20 := by
  simp [sha1, word32Bytes]

theorem sha1_lt (msg : Bytes) : ∀ x ∈ sha1 msg, x < 256 := by
  intro x hx
  simp only [sha1, word32Bytes, List.cons_append, List.nil_append, List.mem_cons,
    List.mem_singleton, List.not_mem_nil, or_false] at hx
  rcases hx with h | h | h | h | h | h | h | h | h | h | h | h | h | h | h | h | h | h | h | h <;>
    (subst h; exact Nat.mod_lt _ (by decide))

/-- SHA-1 of `abc`, the first test vector of FIPS 180. -/
theorem sha1_abc :
    sha1 (goBytes "abc")
      = [0xa9, 0x99, 0x3e, 0x36, 0x47, 0x06, 0x81, 0x6a, 0xba, 0x3e, 0x25, 0x71, 0x78, 0x50,
         0xc2, 0x6c, 0x9c, 0xd0, 0xd8, 0x9d] := by
  decide!

/-- HMAC-SHA1 of test case 2 of RFC 2202. -/
theorem specHmacSha1_rfc2202 :
    specHmacSha1 (goBytes "Jefe") (goBytes "what do ya want for nothing?")
      = [0xef, 0xfc, 0xdf, 0x6a, 0xe5, 0xeb, 0x2f, 0xa2, 0xd2, 0x74, 0x16, 0xd5, 0xf1, 0x84,
         0xdf, 0x9c, 0x25, 0x9a, 0x7c, 0x79] := by
  decide!

/-- The signature of the organizations request at a fixed date under the
placeholder secret: the value an independent implementation of
base64(HMAC-SHA1(secret, base64(text))) gives; signing the text itself would
give `nIpyUZ/WMieKC9p3dvYYRGhMDLY=`. -/
theorem getSignature_test_vector :
    getSignature "<YOUR_SECRET_ACCESS_KEY>"
        "GET\n\n\nMon, 02 Jan 2006 15:04:00 +0000\n/v2/organizations"
      = "95gv/gDO8mV76C1Z3suLACFyayY=" := by
  decide!

theorem b64Char_mem (v : Nat) : b64Char v ∈ encodeStd := by
  unfold b64Char
  have h : v % 64 < encodeStd.length := by
    have : encodeStd.length = 64 := by decide
    rw [this]
    exact Nat.mod_lt _ (by decide)
  rw [List.getD_eq_getElem _ _ h]
  exact List.getElem_mem h

/-- Signing the text itself, without the base64 step, gives another value
for the organizations request than `getSignature` does. -/
theorem specHmacSha1_of_plain_text :
    base64Std (specHmacSha1 (goBytes "<YOUR_SECRET_ACCESS_KEY>")
        (goBytes "GET\n\n\nMon, 02 Jan 2006 15:04:00 +0000\n/v2/organizations"))
      = "nIpyUZ/WMieKC9p3dvYYRGhMDLY=" := by
  decide!

/-- C1. The signature is the standard base64 text of the HMAC-SHA1, keyed by
the bytes of the secret, of the bytes of the base64 text of the string to
sign; the digest has 20 bytes, so the signature has 28 characters: 27 of the
base64 alphabet and one padding character. -/
theorem getSignature_spec (secret stringToSign : String) :
    getSignature secret stringToSign
        = base64Std (specHmacSha1 (goBytes secret) (goBytes (base64Std (goBytes stringToSign))))
      ∧ (specHmacSha1 (goBytes secret) (goBytes (base64Std (goBytes stringToSign)))).length = 20
      ∧ (getSignature secret stringToSign).length = 28
      ∧ (getSignature secret stringToSign).data.drop 27 = ['=']
      ∧ ∀ c ∈ (getSignature secret stringToSign).data.take 27, c ∈ encodeStd := by
  refine ⟨rfl, sha1_length _, ?_, ?_, ?_⟩
  · simp [getSignature, Hmac.sum, sha1, word32Bytes, base64Std, base64Chars, String.length]
  · simp [getSignature, Hmac.sum, sha1, word32Bytes, base64Std, base64Chars]
  · intro c hc
    simp only [getSignature, Hmac.sum, sha1, word32Bytes, base64Std, base64Chars,
      List.cons_append, List.nil_append, List.take_succ_cons, List.take_zero, List.mem_cons,
      List.not_mem_nil, or_false] at hc
    rcases hc with h | h | h | h | h | h | h | h | h | h | h | h | h | h | h | h | h | h | h
      | h | h | h | h | h | h | h | h <;> (subst h; exact b64Char_mem _)

/-- The signature depends on the secret through the key block of HMAC only. -/
theorem getSignature_of_keyBlock (secret secret2 stringToSign : String)
    (h : hmacKeyBlock (goBytes secret) = hmacKeyBlock (goBytes secret2)) :
    getSignature secret stringToSign = getSignature secret2 stringToSign := by
  simp [getSignature, hmacNew, h]

/-- The bytes of `digestSecret` are the SHA-1 digest of `longSecret`. -/
theorem sha1_longSecret : sha1 (goBytes longSecret) = goBytes digestSecret := by
  decide!

theorem keyBlock_longSecret :
    hmacKeyBlock (goBytes longSecret) = hmacKeyBlock (goBytes digestSecret) := by
  have h1 : (goBytes longSecret).length > sha1BlockSize := by decide
  have h2 : ¬ (goBytes digestSecret).length > sha1BlockSize := by decide
  unfold hmacKeyBlock
  simp only [h1, h2, if_true, if_false, sha1_longSecret]

theorem keyBlock_nul : hmacKeyBlock (goBytes "k") = hmacKeyBlock (goBytes "k\x00") := by
  decide

theorem append_left_ne (a b c : String) (h : a ≠ b) : a ++ c ≠ b ++ c := by
  intro h2
  apply h
  rw [String.ext_iff] at h2 ⊢
  simpa [String.data_append] using h2

theorem append_right_ne (a b c : String) (h : b ≠ c) : a ++ b ≠ a ++ c := by
  intro h2
  apply h
  rw [String.ext_iff] at h2 ⊢
  simpa [String.data_append] using h2

/-! ## Injectivity of the encodings -/

theorem char_toNat_lt (c : Char) : c.toNat < 0x110000 := by
  have h := c.valid
  simp only [UInt32.isValidChar, Nat.isValidChar] at h
  show c.val.toNat < 0x110000
  omega

theorem char_eq_of_toNat (c c2 : Char) (h : c.toNat = c2.toNat) : c = c2 := by
  rw [← Char.ofNat_toNat c, ← Char.ofNat_toNat c2, h]

theorem utf8EncodeChar_lt (c : Char) : ∀ b ∈ utf8EncodeChar c, b < 256 := by
  have hv := char_toNat_lt c
  intro b hb
  unfold utf8EncodeChar at hb
  simp only [] at hb
  split_ifs at hb <;> simp only [List.mem_cons, List.mem_singleton, List.not_mem_nil, or_false] at hb <;> omega

theorem utf8EncodeChar_append_inj (c c2 : Char) (r r2 : Bytes)
    (h : utf8EncodeChar c ++ r = utf8EncodeChar c2 ++ r2) : c = c2 ∧ r = r2 := by
  have hv := char_toNat_lt c
  have hv2 := char_toNat_lt c2
  unfold utf8EncodeChar at h
  simp only [] at h
  split_ifs at h <;>
    simp only [List.cons_append, List.nil_append, List.cons.injEq] at h <;>
    first
      | (refine ⟨char_eq_of_toNat c c2 (by omega), ?_⟩
         first | exact h.2 | exact h.2.2 | exact h.2.2.2 | exact h.2.2.2.2)
      | (exfalso; omega)

theorem goBytes_lt (s : String) : ∀ b ∈ goBytes s, b < 256 := by
  intro b hb
  unfold goBytes at hb
  rw [List.mem_flatMap] at hb
  obtain ⟨c, -, hc⟩ := hb
  exact utf8EncodeChar_lt c b hc

theorem flatMap_utf8_inj (l l2 : List Char)
    (h : l.flatMap utf8EncodeChar = l2.flatMap utf8EncodeChar) : l = l2 := by
  induction l generalizing l2 with
  | nil =>
    cases l2 with
    | nil => rfl
    | cons c2 r2 =>
      exfalso
      have h2 : utf8EncodeChar c2 ++ r2.flatMap utf8EncodeChar = [] := by
        simpa [List.flatMap_cons] using h.symm
      have h3 : utf8EncodeChar c2 = [] := (List.append_eq_nil.1 h2).1
      unfold utf8EncodeChar at h3
      simp only [] at h3
      split_ifs at h3
  | cons c r ih =>
    cases l2 with
    | nil =>
      exfalso
      have h2 : utf8EncodeChar c ++ r.flatMap utf8EncodeChar = [] := by
        simpa [List.flatMap_cons] using h
      have h3 : utf8EncodeChar c = [] := (List.append_eq_nil.1 h2).1
      unfold utf8EncodeChar at h3
      simp only [] at h3
      split_ifs at h3
    | cons c2 r2 =>
      rw [List.flatMap_cons, List.flatMap_cons] at h
      obtain ⟨h1, h2⟩ := utf8EncodeChar_append_inj c c2 _ _ h
      rw [h1, ih r2 h2]

theorem goBytes_inj (s s2 : String) (h : goBytes s = goBytes s2) : s = s2 := by
  rw [String.ext_iff]
  exact flatMap_utf8_inj _ _ h

theorem encodeStd_nodup : encodeStd.Nodup := by
  decide

theorem b64Char_inj (v w : Nat) (h : b64Char v = b64Char w) : v % 64 = w % 64 := by
  have hlen : encodeStd.length = 64 := by decide
  have hv : v % 64 < encodeStd.length := by rw [hlen]; exact Nat.mod_lt _ (by decide)
  have hw : w % 64 < encodeStd.length := by rw [hlen]; exact Nat.mod_lt _ (by decide)
  unfold b64Char at h
  rw [List.getD_eq_getElem _ _ hv, List.getD_eq_getElem _ _ hw] at h
  exact (List.Nodup.getElem_inj_iff encodeStd_nodup).1 h

theorem b64Char_ne_pad (v : Nat) : b64Char v ≠ '=' := by
  intro h
  have hm := b64Char_mem v
  rw [h] at hm
  exact absurd hm (by decide)

theorem pad_ne_b64Char (v : Nat) : '=' ≠ b64Char v := fun h => b64Char_ne_pad v h.symm

theorem base64Chars_inj : ∀ (l l2 : Bytes), (∀ b ∈ l, b < 256) → (∀ b ∈ l2, b < 256) →
    base64Chars l = base64Chars l2 → l = l2
  | [], [], _, _, _ => rfl
  | [], [_], _, _, h => by simp [base64Chars] at h
  | [], [_, _], _, _, h => by simp [base64Chars] at h
  | [], _ :: _ :: _ :: _, _, _, h => by simp [base64Chars] at h
  | [_], [], _, _, h => by simp [base64Chars] at h
  | [a], [a2], hl, hl2, h => by
    simp only [base64Chars, List.cons.injEq, and_true] at h
    have h1 := b64Char_inj _ _ h.1
    have h2 := b64Char_inj _ _ h.2
    have ha := hl a (by simp)
    have ha2 := hl2 a2 (by simp)
    have : a = a2 := by omega
    rw [this]
  | [_], [_, _], _, _, h => by
    simp only [base64Chars, List.cons.injEq, and_true] at h
    exact absurd h.2.2 (pad_ne_b64Char _)
  | [_], _ :: _ :: _ :: _, _, _, h => by
    simp only [base64Chars, List.cons.injEq] at h
    exact absurd h.2.2.1 (pad_ne_b64Char _)
  | [_, _], [], _, _, h => by simp [base64Chars] at h
  | [_, _], [_], _, _, h => by
    simp only [base64Chars, List.cons.injEq, and_true] at h
    exact absurd h.2.2 (b64Char_ne_pad _)
  | [a, b], [a2, b2], hl, hl2, h => by
    simp only [base64Chars, List.cons.injEq, and_true] at h
    have h1 := b64Char_inj _ _ h.1
    have h2 := b64Char_inj _ _ h.2.1
    have h3 := b64Char_inj _ _ h.2.2
    have ha := hl a (by simp)
    have hb := hl b (by simp)
    have ha2 := hl2 a2 (by simp)
    have hb2 := hl2 b2 (by simp)
    have e1 : a = a2 := by omega
    have e2 : b = b2 := by omega
    rw [e1, e2]
  | [_, _], _ :: _ :: _ :: _, _, _, h => by
    simp only [base64Chars, List.cons.injEq] at h
    exact absurd h.2.2.2.1 (pad_ne_b64Char _)
  | _ :: _ :: _ :: _, [], _, _, h => by simp [base64Chars] at h
  | _ :: _ :: _ :: _, [_], _, _, h => by
    simp only [base64Chars, List.cons.injEq] at h
    exact absurd h.2.2.1 (b64Char_ne_pad _)
  | _ :: _ :: _ :: _, [_, _], _, _, h => by
    simp only [base64Chars, List.cons.injEq] at h
    exact absurd h.2.2.2.1 (b64Char_ne_pad _)
  | a :: b :: c :: rest, a2 :: b2 :: c2 :: rest2, hl, hl2, h => by
    simp only [base64Chars, List.cons.injEq] at h
    have h1 := b64Char_inj _ _ h.1
    have h2 := b64Char_inj _ _ h.2.1
    have h3 := b64Char_inj _ _ h.2.2.1
    have h4 := b64Char_inj _ _ h.2.2.2.1
    have ha := hl a (by simp)
    have hb := hl b (by simp)
    have hc := hl c (by simp)
    have ha2 := hl2 a2 (by simp)
    have hb2 := hl2 b2 (by simp)
    have hc2 := hl2 c2 (by simp)
    have e1 : a = a2 := by omega
    have e2 : b = b2 := by omega
    have e3 : c = c2 := by omega
    have ih := base64Chars_inj rest rest2
      (fun x hx => hl x (by simp [hx])) (fun x hx => hl2 x (by simp [hx])) h.2.2.2.2
    rw [e1, e2, e3, ih]

theorem base64Std_inj (l l2 : Bytes) (hl : ∀ b ∈ l, b < 256) (hl2 : ∀ b ∈ l2, b < 256)
    (h : base64Std l = base64Std l2) : l = l2 := by
  unfold base64Std at h
  exact base64Chars_inj l l2 hl hl2 (congrArg String.data h)

/-! ## The signature and collisions of SHA-1 -/

theorem hmacKeyBlock_length (key : Bytes) : (hmacKeyBlock key).length = 64 := by
  unfold hmacKeyBlock sha1BlockSize
  simp only []
  split
  · simp [sha1_length]
  · rename_i h
    simp only [List.length_append, List.length_replicate]
    omega

theorem hmacKeyBlock_lt (key : Bytes) (hkey : ∀ b ∈ key, b < 256) :
    ∀ b ∈ hmacKeyBlock key, b < 256 := by
  intro b hb
  unfold hmacKeyBlock at hb
  simp only [List.mem_append, List.mem_replicate] at hb
  rcases hb with hb | ⟨-, hb⟩
  · split at hb
    · exact sha1_lt _ b hb
    · exact hkey b hb
  · omega

theorem map_xor_lt (l : Bytes) (c : Nat) (hc : c < 256) (hl : ∀ b ∈ l, b < 256) :
    ∀ b ∈ l.map (fun x => x ^^^ c), b < 256 := by
  intro b hb
  rw [List.mem_map] at hb
  obtain ⟨x, hx, rfl⟩ := hb
  exact Nat.xor_lt_two_pow (n := 8) (hl x hx) hc

theorem map_xor_inj (l l2 : Bytes) (c : Nat)
    (h : l.map (fun x => x ^^^ c) = l2.map (fun x => x ^^^ c)) : l = l2 := by
  have h2 := congrArg (List.map (fun x => x ^^^ c)) h
  simpa [List.map_map, Function.comp_def, Nat.xor_cancel_right] using h2

theorem getSignature_eq_outer (secret stringToSign : String) :
    getSignature secret stringToSign = base64Std (sha1 (specOuter secret stringToSign)) := rfl

theorem specInner_lt (secret stringToSign : String) :
    ∀ b ∈ specInner secret stringToSign, b < 256 := by
  intro b hb
  unfold specInner at hb
  rw [List.mem_append] at hb
  rcases hb with hb | hb
  · exact map_xor_lt _ _ (by decide) (hmacKeyBlock_lt _ (goBytes_lt secret)) b hb
  · exact goBytes_lt _ b hb

theorem specOuter_lt (secret stringToSign : String) :
    ∀ b ∈ specOuter secret stringToSign, b < 256 := by
  intro b hb
  unfold specOuter at hb
  rw [List.mem_append] at hb
  rcases hb with hb | hb
  · exact map_xor_lt _ _ (by decide) (hmacKeyBlock_lt _ (goBytes_lt secret)) b hb
  · exact sha1_lt _ b hb

/-- Equal signatures have equal outer digests. -/
theorem sha1_outer_of_signature (secret secret2 s s2 : String)
    (h : getSignature secret s = getSignature secret2 s2) :
    sha1 (specOuter secret s) = sha1 (specOuter secret2 s2) := by
  rw [getSignature_eq_outer, getSignature_eq_outer] at h
  exact base64Std_inj _ _ (sha1_lt _) (sha1_lt _) h

/-- Two different strings to sign, signed with one secret, have different
signatures unless SHA-1 collides on the two byte strings HMAC hashes first or
on the two it hashes last. -/
theorem signature_ne_of_stringToSign (secret s s2 : String) (hne : s ≠ s2)
    (hinner : ¬ Sha1Collision (specInner secret s) (specInner secret s2))
    (houter : ¬ Sha1Collision (specOuter secret s) (specOuter secret s2)) :
    getSignature secret s ≠ getSignature secret s2 := by
  intro h
  have hout := sha1_outer_of_signature secret secret s s2 h
  have houtEq : specOuter secret s = specOuter secret s2 := by
    by_contra hn
    exact houter ⟨hn, specOuter_lt _ _, specOuter_lt _ _, hout⟩
  have hin : sha1 (specInner secret s) = sha1 (specInner secret s2) := by
    unfold specOuter at houtEq
    exact List.append_cancel_left houtEq
  apply hinner
  refine ⟨?_, specInner_lt _ _, specInner_lt _ _, hin⟩
  intro heq
  unfold specInner at heq
  have h1 := List.append_cancel_left heq
  have h2 := goBytes_inj _ _ h1
  have h3 := base64Std_inj _ _ (goBytes_lt _) (goBytes_lt _) h2
  exact hne (goBytes_inj _ _ h3)

/-- Two secrets with different key blocks sign a string differently unless
SHA-1 collides on the two byte strings HMAC hashes last. -/
theorem signature_ne_of_keyBlock (secret secret2 s : String)
    (hne : hmacKeyBlock (goBytes secret) ≠ hmacKeyBlock (goBytes secret2))
    (houter : ¬ Sha1Collision (specOuter secret s) (specOuter secret2 s)) :
    getSignature secret s ≠ getSignature secret2 s := by
  intro h
  have hout := sha1_outer_of_signature secret secret2 s s h
  apply houter
  refine ⟨?_, specOuter_lt _ _, specOuter_lt _ _, hout⟩
  intro heq
  unfold specOuter at heq
  have hlen : ((hmacKeyBlock (goBytes secret)).map (fun b => b ^^^ 0x5c)).length
      = ((hmacKeyBlock (goBytes secret2)).map (fun b => b ^^^ 0x5c)).length := by
    simp [hmacKeyBlock_length]
  exact hne (map_xor_inj _ _ _ (List.append_inj heq hlen).1)

/-- The byte lists of length 20 with entries below 256 are finitely many. -/
theorem digests_finite : {l : Bytes | l.length = 20 ∧ ∀ x ∈ l, x < 256}.Finite := by
  have hfin : {l : List (Fin 256) | l.length = 20}.Finite := List.finite_length_eq (Fin 256) 20
  refine (hfin.image (fun l => l.map (fun x => x.val))).subset ?_
  rintro l ⟨hlen, hlt⟩
  refine ⟨l.pmap (fun x hx => (⟨x, hx⟩ : Fin 256)) hlt, by simpa using hlen, ?_⟩
  simp [List.map_pmap]

/-- However the string to sign is made from a string that varies, the
signature is not an injective function of it: there are infinitely many
strings and finitely many digests. -/
theorem signature_not_injective (secret : String) (toSign : String → String) :
    ¬ ∀ a b : String, a ≠ b →
        getSignature secret (toSign a) ≠ getSignature secret (toSign b) := by
  intro hinj
  have hdinj : Function.Injective (fun a => sha1 (specOuter secret (toSign a))) := by
    intro a b hab
    by_contra hne
    exact hinj a b hne (by rw [getSignature_eq_outer, getSignature_eq_outer]; exact congrArg _ hab)
  have hmem : ∀ a, sha1 (specOuter secret (toSign a))
      ∈ {l : Bytes | l.length = 20 ∧ ∀ x ∈ l, x < 256} :=
    fun a => ⟨sha1_length _, sha1_lt _⟩
  exact Set.infinite_of_injective_forall_mem hdinj hmem digests_finite

/-- A secret longer than the block of SHA-1 and a secret whose bytes are its
digest have the same key block. -/
theorem keyBlock_of_digest (secret secret2 : String) (hlong : (goBytes secret).length > 64)
    (hdigest : goBytes secret2 = sha1 (goBytes secret)) :
    hmacKeyBlock (goBytes secret) = hmacKeyBlock (goBytes secret2) := by
  have h2 : ¬ (sha1 (goBytes secret)).length > 64 := by rw [sha1_length]; decide
  unfold hmacKeyBlock sha1BlockSize
  simp only [hdigest, hlong, h2, if_true, if_false]

theorem goBytes_append_nul (secret : String) (n : Nat) :
    goBytes (secret ++ String.mk (List.replicate n (Char.ofNat 0)))
      = goBytes secret ++ List.replicate n 0 := by
  unfold goBytes
  rw [String.data_append, List.flatMap_append]
  congr 1
  induction n with
  | zero => rfl
  | succ n ih =>
    rw [List.replicate_succ, List.flatMap_cons, ih]
    rfl

/-- A secret and the same followed by NUL characters, not more than 64 bytes
in all, have the same key block. -/
theorem keyBlock_of_nul (secret : String) (n : Nat) (hlen : (goBytes secret).length + n ≤ 64) :
    hmacKeyBlock (goBytes (secret ++ String.mk (List.replicate n (Char.ofNat 0))))
      = hmacKeyBlock (goBytes secret) := by
  rw [goBytes_append_nul]
  have hlen2 : (goBytes secret ++ List.replicate n 0).length = (goBytes secret).length + n := by
    simp
  have h1 : ¬ (goBytes secret ++ List.replicate n 0).length > 64 := by omega
  have h2 : ¬ (goBytes secret).length > 64 := by omega
  unfold hmacKeyBlock sha1BlockSize
  simp only [h1, h2, if_false, List.append_assoc, List.append_replicate_replicate]
  congr 2
  omega

/-- C7 as stated fails for each of the four inputs. For the secret: a secret
longer than the block of SHA-1 and the twenty characters of its digest are
different secrets with the same signature for the organizations request, and
so are the secret `k` and the same followed by a NUL character. For the
method, the date and the path: under the secret `k` the signature is not an
injective function of any of them, the others kept. -/
theorem signature_same_for_two_secrets :
    (longSecret ≠ digestSecret
      ∧ getSignature longSecret
          (getStringToSign otherUnused "GET" "" "" "Mon, 02 Jan 2006 15:04:05 +0000"
            "/v2/organizations")
        = getSignature digestSecret
          (getStringToSign otherUnused "GET" "" "" "Mon, 02 Jan 2006 15:04:05 +0000"
            "/v2/organizations"))
      ∧ ("k" ≠ "k\x00"
      ∧ getSignature "k"
          (getStringToSign otherUnused "GET" "" "" "Mon, 02 Jan 2006 15:04:05 +0000"
            "/v2/organizations")
        = getSignature "k\x00"
          (getStringToSign otherUnused "GET" "" "" "Mon, 02 Jan 2006 15:04:05 +0000"
            "/v2/organizations"))
      ∧ (¬ ∀ method method2 : String, method ≠ method2 →
          getSignature "k" (getStringToSign otherUnused method "" ""
              "Mon, 02 Jan 2006 15:04:05 +0000" "/v2/organizations")
            ≠ getSignature "k" (getStringToSign otherUnused method2 "" ""
              "Mon, 02 Jan 2006 15:04:05 +0000" "/v2/organizations"))
      ∧ (¬ ∀ date date2 : String, date ≠ date2 →
          getSignature "k" (getStringToSign otherUnused "GET" "" "" date "/v2/organizations")
            ≠ getSignature "k" (getStringToSign otherUnused "GET" "" "" date2
              "/v2/organizations"))
      ∧ (¬ ∀ path path2 : String, path ≠ path2 →
          getSignature "k" (getStringToSign otherUnused "GET" "" ""
              "Mon, 02 Jan 2006 15:04:05 +0000" path)
            ≠ getSignature "k" (getStringToSign otherUnused "GET" "" ""
              "Mon, 02 Jan 2006 15:04:05 +0000" path2)) :=
  ⟨⟨by decide, getSignature_of_keyBlock _ _ _ keyBlock_longSecret⟩,
   ⟨by decide, getSignature_of_keyBlock _ _ _ keyBlock_nul⟩,
   signature_not_injective "k" (fun method => getStringToSign otherUnused method "" ""
     "Mon, 02 Jan 2006 15:04:05 +0000" "/v2/organizations"),
   signature_not_injective "k" (fun date => getStringToSign otherUnused "GET" "" "" date
     "/v2/organizations"),
   signature_not_injective "k" (fun path => getStringToSign otherUnused "GET" "" ""
     "Mon, 02 Jan 2006 15:04:05 +0000" path)⟩

theorem getStringToSign_method_ne (other : OtherFormat) (m m2 d p : String) (h : m ≠ m2) :
    getStringToSign other m "" "" d p ≠ getStringToSign other m2 "" "" d p := by
  rw [getStringToSign_eq, getStringToSign_eq]
  simp only [String.append_assoc]
  exact append_left_ne _ _ _ h

theorem getStringToSign_date_ne (other : OtherFormat) (m d d2 p : String) (h : d ≠ d2) :
    getStringToSign other m "" "" d p ≠ getStringToSign other m "" "" d2 p := by
  rw [getStringToSign_eq, getStringToSign_eq]
  simp only [String.append_assoc]
  repeat apply append_right_ne
  exact append_left_ne _ _ _ h

theorem getStringToSign_path_ne (other : OtherFormat) (m d p p2 : String) (h : p ≠ p2) :
    getStringToSign other m "" "" d p ≠ getStringToSign other m "" "" d p2 := by
  rw [getStringToSign_eq, getStringToSign_eq]
  exact append_right_ne _ _ _ h

/-- C7 as amended. Changing one of method, date or path, the others kept,
changes the signature unless SHA-1 collides on the two byte strings HMAC
hashes first (inner pad and base64 text of the string to sign) or on the two
it hashes last (outer pad and inner digest); replacing the secret by one with
another key block changes the signature unless SHA-1 collides on the two byte
strings hashed last; two secrets with the same key block sign alike, which is
the case of a secret longer than 64 bytes and the string of its SHA-1 digest,
and of a secret and the same followed by NUL characters up to 64 bytes. -/
theorem signature_changes_unless_collision (other : OtherFormat) :
    (∀ secret method method2 date path : String, method ≠ method2 →
        ¬ Sha1Collision (specInner secret (getStringToSign other method "" "" date path))
            (specInner secret (getStringToSign other method2 "" "" date path)) →
        ¬ Sha1Collision (specOuter secret (getStringToSign other method "" "" date path))
            (specOuter secret (getStringToSign other method2 "" "" date path)) →
        getSignature secret (getStringToSign other method "" "" date path)
          ≠ getSignature secret (getStringToSign other method2 "" "" date path))
      ∧ (∀ secret method date date2 path : String, date ≠ date2 →
        ¬ Sha1Collision (specInner secret (getStringToSign other method "" "" date path))
            (specInner secret (getStringToSign other method "" "" date2 path)) →
        ¬ Sha1Collision (specOuter secret (getStringToSign other method "" "" date path))
            (specOuter secret (getStringToSign other method "" "" date2 path)) →
        getSignature secret (getStringToSign other method "" "" date path)
          ≠ getSignature secret (getStringToSign other method "" "" date2 path))
      ∧ (∀ secret method date path path2 : String, path ≠ path2 →
        ¬ Sha1Collision (specInner secret (getStringToSign other method "" "" date path))
            (specInner secret (getStringToSign other method "" "" date path2)) →
        ¬ Sha1Collision (specOuter secret (getStringToSign other method "" "" date path))
            (specOuter secret (getStringToSign other method "" "" date path2)) →
        getSignature secret (getStringToSign other method "" "" date path)
          ≠ getSignature secret (getStringToSign other method "" "" date path2))
      ∧ (∀ secret secret2 method date path : String,
        hmacKeyBlock (goBytes secret) ≠ hmacKeyBlock (goBytes secret2) →
        ¬ Sha1Collision (specOuter secret (getStringToSign other method "" "" date path))
            (specOuter secret2 (getStringToSign other method "" "" date path)) →
        getSignature secret (getStringToSign other method "" "" date path)
          ≠ getSignature secret2 (getStringToSign other method "" "" date path))
      ∧ (∀ secret secret2 stringToSign : String,
        hmacKeyBlock (goBytes secret) = hmacKeyBlock (goBytes secret2) →
        getSignature secret stringToSign = getSignature secret2 stringToSign)
      ∧ (∀ secret secret2 : String, (goBytes secret).length > 64 →
        goBytes secret2 = sha1 (goBytes secret) →
        hmacKeyBlock (goBytes secret) = hmacKeyBlock (goBytes secret2))
      ∧ (∀ (secret : String) (n : Nat), (goBytes secret).length + n ≤ 64 →
        hmacKeyBlock (goBytes (secret ++ String.mk (List.replicate n (Char.ofNat 0))))
          = hmacKeyBlock (goBytes secret)) :=
  ⟨fun secret m m2 d p h hi ho =>
      signature_ne_of_stringToSign secret _ _ (getStringToSign_method_ne other m m2 d p h) hi ho,
   fun secret m d d2 p h hi ho =>
      signature_ne_of_stringToSign secret _ _ (getStringToSign_date_ne other m d d2 p h) hi ho,
   fun secret m d p p2 h hi ho =>
      signature_ne_of_stringToSign secret _ _ (getStringToSign_path_ne other m d p p2 h) hi ho,
   fun secret secret2 _ _ _ h ho => signature_ne_of_keyBlock secret secret2 _ h ho,
   getSignature_of_keyBlock, keyBlock_of_digest, keyBlock_of_nul⟩

/-- Under the secret `k` the methods `GET` and `PUT` sign the organizations
request differently, SHA-1 giving different digests on the inner and on the
outer byte strings; the secrets `k` and `j` sign it differently; the secret
`k` followed by a NUL character signs it as `k` does. -/
theorem signature_changes_unless_collision_witness :
    "GET" ≠ "PUT"
      ∧ getSignature "k" (getStringToSign otherUnused "GET" "" ""
            "Mon, 02 Jan 2006 15:04:05 +0000" "/v2/organizations")
          ≠ getSignature "k" (getStringToSign otherUnused "PUT" "" ""
            "Mon, 02 Jan 2006 15:04:05 +0000" "/v2/organizations")
      ∧ hmacKeyBlock (goBytes "k") ≠ hmacKeyBlock (goBytes "j")
      ∧ getSignature "k" (getStringToSign otherUnused "GET" "" ""
            "Mon, 02 Jan 2006 15:04:05 +0000" "/v2/organizations")
          ≠ getSignature "j" (getStringToSign otherUnused "GET" "" ""
            "Mon, 02 Jan 2006 15:04:05 +0000" "/v2/organizations")
      ∧ (goBytes "k").length + 1 ≤ 64
      ∧ getSignature ("k" ++ String.mk (List.replicate 1 (Char.ofNat 0))) "GET"
          = getSignature "k" "GET" :=
  ⟨by decide,
   (signature_changes_unless_collision otherUnused).1 "k" "GET" "PUT"
     "Mon, 02 Jan 2006 15:04:05 +0000" "/v2/organizations" (by decide)
     (fun h => absurd h.2.2.2 (by decide!)) (fun h => absurd h.2.2.2 (by decide!)),
   by decide,
   (signature_changes_unless_collision otherUnused).2.2.2.1 "k" "j" "GET"
     "Mon, 02 Jan 2006 15:04:05 +0000" "/v2/organizations" (by decide)
     (fun h => absurd h.2.2.2 (by decide!)),
   by decide,
   (signature_changes_unless_collision otherUnused).2.2.2.2.1 _ _ "GET"
     ((signature_changes_unless_collision otherUnused).2.2.2.2.2.2 "k" 1 (by decide))⟩

/-! ## The report and the driver -/

theorem specConcat_cons (a : String) (l : List String) :
    specConcat (a :: l) = a ++ specConcat l := rfl

theorem specConcat_nil : specConcat [] = "" := rfl

theorem appendRows_eq (other : OtherFormat) (name : String) (visited : Counters)
    (output_csv : String) :
    appendRows other name visited output_csv = output_csv ++ specBlock name visited := by
  unfold appendRows specBlock
  induction visited generalizing output_csv with
  | nil => simp [specConcat]
  | cons e rest ih =>
    simp only [List.foldl_cons, List.map_cons, specConcat_cons]
    rw [ih, Sprintf_row, String.append_assoc]

theorem callApi_request {α : Type} (other : OtherFormat) (access secret date path : String)
    (answer : Answer α) :
    (callApi other access answer path
      (getSignature secret (getStringToSign other "GET" "" "" date path)) date).request
      = specRequest other access secret date path := by
  unfold callApi specRequest API_HOST
  cases answer with
  | none => rfl
  | some d => cases h : d.err <;> simp [h]

theorem callApi_result_none {α : Type} (other : OtherFormat) (access url sig date : String) :
    (callApi other access (none : Answer α) url sig date).result = none := rfl

theorem callApi_result_some {α : Type} (other : OtherFormat) (access url sig date : String)
    (d : Decoded α) :
    (callApi other access (some d) url sig date).result
      = some (if d.err.isSome then 1 else 0, d.dst, match d.err with
          | some err => "Error: " ++ err.msg
          | none => "") := by
  unfold callApi
  cases h : d.err with
  | none => simp [h]
  | some e => simp [h, Printf_error]

/-- The customer loop when every devices call comes back: the rows, the
diagnostics and the requests it adds. -/
theorem customerLoop_of_answers (other : OtherFormat) (ord : MapOrder) (w : World)
    (access secret : String) (customers : List Customer) (k : Nat) (p : Progress)
    (hdev : ∀ j, j < customers.length → w.devices (k + j) ≠ none) :
    customerLoop other ord w access secret customers k p
      = { requests := p.requests ++ (customers.enumFrom k).map (fun q =>
            specRequest other access secret (w.now (q.1 + 1)) (specDevicesPath q.2)),
          printed := p.printed ++ specConcat ((customers.enumFrom k).map (fun q =>
            specDiagnostic (w.devices q.1))),
          output_csv := p.output_csv ++ specConcat ((customers.enumFrom k).map (fun q =>
            specBlock q.2.Name (specVisited ord w q.1))),
          panicked := if customers = [] then p.panicked else false } := by
  induction customers generalizing k p with
  | nil => simp [customerLoop, specConcat]
  | cons org rest ih =>
    have h0 : w.devices k ≠ none := by simpa using hdev 0 (by simp)
    obtain ⟨d, hd⟩ := Option.ne_none_iff_exists'.1 h0
    have hrest : ∀ j, j < rest.length → w.devices (k + 1 + j) ≠ none := by
      intro j hj
      have := hdev (j + 1) (by simpa using hj)
      rwa [show k + (j + 1) = k + 1 + j by omega] at this
    unfold customerLoop
    simp only [Sprintf_devicesUrl]
    rw [show "/v2/organization/" ++ fmtDecimal org.Id ++ "/devices" = specDevicesPath org from rfl]
    simp only [callApi_request, hd, callApi_result_some]
    rw [ih (k + 1) _ hrest]
    have hvis : ord.order k (countDevices d.dst []) = specVisited ord w k := by
      simp [specVisited, specDevices, hd]
    have hdiag : ((match d.err with
          | some err => "Error: " ++ err.msg
          | none => "")
        ++ if (if d.err.isSome = true then (1 : Int) else 0) ≠ 0
            then Printf other "Error: in callApi" [] else "")
        = specDiagnostic (w.devices k) := by
      rw [hd]
      unfold specDiagnostic
      obtain ⟨dst, err⟩ := d
      cases err <;> simp [Printf_inCallApi]
    simp only [List.enumFrom_cons, List.map_cons, specConcat_cons, appendRows_eq, hvis,
      List.append_assoc, List.singleton_append, String.append_assoc, reduceCtorEq, if_false]
    rw [← hdiag]
    simp [String.append_assoc]

/-- The run of `main` when the organizations call and every devices call come
back, with or without a decoding error. -/
theorem main_of_answers (other : OtherFormat) (ord : MapOrder) (w : World)
    (d0 : Decoded (List Customer)) (horg : w.organizations = some d0)
    (hdev : ∀ k, k < d0.dst.length → w.devices k ≠ none) :
    main other ord w
      = { requests :=
            specRequest other (init w.getenv).1 (init w.getenv).2 (w.now 0) "/v2/organizations"
              :: d0.dst.enum.map (fun q =>
                specRequest other (init w.getenv).1 (init w.getenv).2 (w.now (q.1 + 1))
                  (specDevicesPath q.2)),
          diagnostics := specDiagnostic w.organizations
            ++ specConcat (d0.dst.enum.map (fun q => specDiagnostic (w.devices q.1))),
          output_csv := specHeader
            ++ specConcat (d0.dst.enum.map (fun q => specBlock q.2.Name (specVisited ord w q.1))),
          emitted := some (Printf other (specHeader
            ++ specConcat (d0.dst.enum.map (fun q => specBlock q.2.Name (specVisited ord w q.1))))
            []) } := by
  have hdev2 : ∀ j, j < d0.dst.length → w.devices (0 + j) ≠ none := by
    intro j hj
    simpa using hdev j hj
  have hdiag : ((match d0.err with
        | some err => "Error: " ++ err.msg
        | none => "")
      ++ if (if d0.err.isSome = true then (1 : Int) else 0) ≠ 0
          then Printf other "Error: in callApi" [] else "")
      = specDiagnostic w.organizations := by
    rw [horg]
    unfold specDiagnostic
    obtain ⟨dst, err⟩ := d0
    cases err <;> simp [Printf_inCallApi]
  unfold main
  simp only [callApi_request, horg, callApi_result_some]
  rw [customerLoop_of_answers other ord w _ _ d0.dst 0 _ hdev2]
  simp only [hdiag, List.enum, specHeader, List.singleton_append, ite_self, Bool.false_eq_true,
    if_false]
  rw [← horg]

/-- The requests of the customer loop in any world: those of the first `n`
organizations, all of them unless a devices call fails in transport. -/
theorem customerLoop_requests (other : OtherFormat) (ord : MapOrder) (w : World)
    (access secret : String) (customers : List Customer) (k : Nat) :
    ∃ n, n ≤ customers.length
      ∧ (∀ p : Progress, (customerLoop other ord w access secret customers k p).requests
          = p.requests ++ ((customers.take n).enumFrom k).map (fun q =>
              specRequest other access secret (w.now (q.1 + 1)) (specDevicesPath q.2)))
      ∧ ((∀ j, j < customers.length → w.devices (k + j) ≠ none) → n = customers.length) := by
  induction customers generalizing k with
  | nil => exact ⟨0, by simp [customerLoop]⟩
  | cons org rest ih =>
    cases hd : w.devices k with
    | none =>
      refine ⟨1, by simp, ?_, ?_⟩
      · intro p
        unfold customerLoop
        simp only [Sprintf_devicesUrl]
        rw [show "/v2/organization/" ++ fmtDecimal org.Id ++ "/devices" = specDevicesPath org
          from rfl]
        simp only [hd, callApi_result_none]
        rw [callApi_request]
        simp [List.enumFrom_cons]
      · intro h
        exact absurd hd (by simpa using h 0 (by simp))
    | some d =>
      obtain ⟨n, hn, hreq, hall⟩ := ih (k + 1)
      refine ⟨n + 1, by simpa using hn, ?_, ?_⟩
      · intro p
        unfold customerLoop
        simp only [Sprintf_devicesUrl]
        rw [show "/v2/organization/" ++ fmtDecimal org.Id ++ "/devices" = specDevicesPath org
          from rfl]
        simp only [hd, callApi_result_some]
        rw [hreq, callApi_request]
        simp [List.enumFrom_cons]
      · intro h
        have : n = rest.length := hall (fun j hj => by
          have := h (j + 1) (by simpa using hj)
          rwa [show k + (j + 1) = k + 1 + j by omega] at this)
        simp [this]

/-- A devices call that fails in transport ends the customer loop in a panic. -/
theorem customerLoop_panicked (other : OtherFormat) (ord : MapOrder) (w : World)
    (access secret : String) (customers : List Customer) (k : Nat) (p : Progress)
    (h : ∃ j, j < customers.length ∧ w.devices (k + j) = none) :
    (customerLoop other ord w access secret customers k p).panicked = true := by
  induction customers generalizing k p with
  | nil =>
    obtain ⟨j, hj, -⟩ := h
    simp at hj
  | cons org rest ih =>
    unfold customerLoop
    cases hd : w.devices k with
    | none => simp [callApi_result_none]
    | some d =>
      simp only [callApi_result_some]
      apply ih
      obtain ⟨j, hj, hnone⟩ := h
      cases j with
      | zero => simp [hd] at hnone
      | succ j =>
        refine ⟨j, by simpa using hj, ?_⟩
        rwa [show k + (j + 1) = k + 1 + j by omega] at hnone

/-- A transport failure of the organizations call, or of the devices call of
one of the organizations, ends `main` in a panic: nothing is emitted. -/
theorem main_panics_of_transport_failure (other : OtherFormat) (ord : MapOrder) (w : World)
    (h : w.organizations = none
      ∨ ∃ k, k < (specCustomers w).length ∧ w.devices k = none) :
    (main other ord w).emitted = none := by
  unfold main
  cases horg : w.organizations with
  | none => simp [callApi_result_none]
  | some d0 =>
    rcases h with h | ⟨k, hk, hnone⟩
    · simp [horg] at h
    · simp only [callApi_result_some]
      have hk2 : k < d0.dst.length := by simpa [specCustomers, horg] using hk
      rw [customerLoop_panicked other ord w _ _ d0.dst 0 _ ⟨k, hk2, by simpa using hnone⟩]
      simp

/-! ## The claims on the report, the failures, the emit and the requests -/

/-- The entries visited for an organization whose devices call came back with
fewer than 2^63 devices: a row for a label exactly when some device has it,
with the number of these devices, and no row twice. -/
theorem specVisited_entries (ord : MapOrder) (w : World) (k : Nat)
    (hlen : (specDevices w k).length < 2 ^ 63) :
    (specVisited ord w k).Nodup
      ∧ ∀ L c, (L, c) ∈ specVisited ord w k
          ↔ c = ((specLabels (specDevices w k)).count L : Int) ∧ c ≠ 0 := by
  obtain ⟨hnd, hmem⟩ := countDevices_entries (specDevices w k) hlen
  have hp : (specVisited ord w k).Perm (countDevices (specDevices w k) []) := ord.perm k _
  exact ⟨hp.nodup_iff.2 hnd, fun L c => by rw [hp.mem_iff, hmem]⟩

/-- C4. When the organizations call and every devices call succeed, the report
accumulated by `main` is the header line followed by one block for each
organization, in the order the organizations were returned; the block of an
organization is the rows `name, label, count` of the entries `range` visits,
which hold, once each, exactly the labels whose count for that organization is
not zero, with that count. -/
theorem report_of_success (other : OtherFormat) (ord : MapOrder) (w : World)
    (orgs : List Customer) (horg : w.organizations = some ⟨orgs, none⟩)
    (hdev : ∀ k, k < orgs.length → ∃ ds, w.devices k = some ⟨ds, none⟩ ∧ ds.length < 2 ^ 63) :
    (main other ord w).output_csv
        = "Customer, DeviceType, Qty\n"
          ++ specConcat (orgs.enum.map (fun q => specBlock q.2.Name (specVisited ord w q.1)))
      ∧ ∀ k, k < orgs.length →
          (specVisited ord w k).Nodup
            ∧ ∀ L c, (L, c) ∈ specVisited ord w k
                ↔ c = ((specLabels (specDevices w k)).count L : Int) ∧ c ≠ 0 := by
  have hdev2 : ∀ k, k < orgs.length → w.devices k ≠ none := by
    intro k hk
    obtain ⟨ds, hds, -⟩ := hdev k hk
    simp [hds]
  refine ⟨?_, ?_⟩
  · rw [main_of_answers other ord w ⟨orgs, none⟩ horg hdev2]
    rfl
  · intro k hk
    obtain ⟨ds, hds, hlen⟩ := hdev k hk
    apply specVisited_entries
    simpa [specDevices, hds] using hlen

/-- The mock API of the specification: one organization `Acme` with two
devices of node class `MAC` gives the header and the single row
`Acme, WINDOWS_WORKSTATION, 2`. -/
theorem report_of_success_witness :
    acmeWorld.organizations = some ⟨[⟨"Acme", "", 1⟩], none⟩
      ∧ (main otherUnused MapOrder.asStored acmeWorld).output_csv
          = "Customer, DeviceType, Qty\nAcme, WINDOWS_WORKSTATION, 2\n" :=
  ⟨rfl,
   (report_of_success otherUnused MapOrder.asStored acmeWorld [⟨"Acme", "", 1⟩] rfl
      (fun _ _ => ⟨_, rfl, by decide⟩)).1.trans (by decide)⟩

/-- The report of the mock API of the specification does not depend on the
order of `range` nor on the formatting taken as a parameter. -/
theorem acme_report (other : OtherFormat) (ord : MapOrder) :
    (main other ord acmeWorld).output_csv
      = "Customer, DeviceType, Qty\nAcme, WINDOWS_WORKSTATION, 2\n" := by
  have hdev : ∀ k, k < 1 → acmeWorld.devices k ≠ none := by
    intro k _
    simp [acmeWorld, exampleWorld]
  rw [main_of_answers other ord acmeWorld ⟨[⟨"Acme", "", 1⟩], none⟩ rfl hdev]
  have hp : (specVisited ord acmeWorld 0).Perm [("WINDOWS_WORKSTATION", 2)] := by
    have h := ord.perm 0 (countDevices (specDevices acmeWorld 0) [])
    have h2 : countDevices (specDevices acmeWorld 0) [] = [("WINDOWS_WORKSTATION", 2)] := by
      decide
    rwa [h2] at h
  have hv : specVisited ord acmeWorld 0 = [("WINDOWS_WORKSTATION", 2)] :=
    List.perm_singleton.1 hp
  simp only [List.enum, List.enumFrom_cons, List.enumFrom_nil, List.map_cons, List.map_nil, hv]
  decide

/-- C5 as stated fails: the decoder meets a type mismatch in the devices
answer of `Acme` after it decoded one device; `callApi` returns 1, and the
report emitted holds a row for `Acme`. -/
theorem failed_organization_has_row :
    Option.map (fun d => d.err) (partialDecodeWorld.devices 0) = some (some typeMismatch)
      ∧ Option.map (fun r => r.1)
          (callApi otherUnused "" (partialDecodeWorld.devices 0) "" "" "").result = some 1
      ∧ (main otherUnused MapOrder.asStored partialDecodeWorld).emitted
          = some ("Customer, DeviceType, Qty\nAcme, WINDOWS_WORKSTATION, 1\n"
              ++ "Beta, LINUX_WORKSTATION, 1\n") := by
  refine ⟨by decide, by decide, by decide⟩

/-- C5 as amended. When every call comes back and the decoder returns an error
for the devices answer of the organization numbered `k0`, `callApi` prints the
error and returns 1, `main` prints its message, finishes its loop and emits the
report; the report is the header and the blocks of all organizations in order,
the block of the failed organization built from the devices the decoder left
in the slice, empty when it left none. -/
theorem report_of_decode_failure (other : OtherFormat) (ord : MapOrder) (w : World)
    (d0 : Decoded (List Customer)) (horg : w.organizations = some d0)
    (hdev : ∀ k, k < d0.dst.length → w.devices k ≠ none)
    (k0 : Nat) (d : Decoded (List Device)) (e : GoError)
    (hfail : w.devices k0 = some d) (herr : d.err = some e) :
    (∀ access url signature date : String,
        (callApi other access (w.devices k0) url signature date).result
          = some (1, d.dst, "Error: " ++ e.msg))
      ∧ specDiagnostic (w.devices k0) = "Error: " ++ e.msg ++ "Error: in callApi"
      ∧ (main other ord w).diagnostics = specDiagnostic w.organizations
          ++ specConcat (d0.dst.enum.map (fun q => specDiagnostic (w.devices q.1)))
      ∧ (main other ord w).emitted = some (Printf other (main other ord w).output_csv [])
      ∧ (main other ord w).output_csv
          = "Customer, DeviceType, Qty\n"
            ++ specConcat (d0.dst.enum.map (fun q => specBlock q.2.Name (specVisited ord w q.1)))
      ∧ specVisited ord w k0 = ord.order k0 (countDevices d.dst [])
      ∧ (d.dst = [] → ∀ name, specBlock name (specVisited ord w k0) = "") := by
  have hvis : specVisited ord w k0 = ord.order k0 (countDevices d.dst []) := by
    simp [specVisited, specDevices, hfail]
  refine ⟨?_, ?_, ?_, ?_, ?_, hvis, ?_⟩
  · intro access url signature date
    rw [hfail, callApi_result_some]
    simp [herr]
  · simp [specDiagnostic, hfail, herr]
  · rw [main_of_answers other ord w d0 horg hdev]
  · rw [main_of_answers other ord w d0 horg hdev]
  · rw [main_of_answers other ord w d0 horg hdev]
    rfl
  · intro hempty name
    have hp := ord.perm k0 (countDevices d.dst [])
    rw [hempty] at hp
    have hnil : ord.order k0 (countDevices [] []) = [] := List.perm_nil.1 hp
    rw [hvis, hempty, hnil]
    rfl

/-- The body of the devices answer for `Acme` is not JSON: the decoder leaves
the slice empty, both messages are printed, and the report emitted is the
header and the row of `Beta`. -/
theorem report_of_decode_failure_witness :
    syntaxErrorWorld.organizations = some ⟨[⟨"Acme", "", 1⟩, ⟨"Beta", "", 2⟩], none⟩
      ∧ (main otherUnused MapOrder.asStored syntaxErrorWorld).diagnostics
          = "Error: invalid character '<' looking for beginning of valueError: in callApi"
      ∧ (main otherUnused MapOrder.asStored syntaxErrorWorld).output_csv
          = "Customer, DeviceType, Qty\nBeta, LINUX_WORKSTATION, 1\n"
      ∧ (main otherUnused MapOrder.asStored syntaxErrorWorld).emitted
          = some "Customer, DeviceType, Qty\nBeta, LINUX_WORKSTATION, 1\n" := by
  have hdev : ∀ k, k < 2 → syntaxErrorWorld.devices k ≠ none := by
    intro k _
    simp only [syntaxErrorWorld, exampleWorld]
    split <;> simp
  have h := report_of_decode_failure otherUnused MapOrder.asStored syntaxErrorWorld
    ⟨[⟨"Acme", "", 1⟩, ⟨"Beta", "", 2⟩], none⟩ rfl hdev 0
    ⟨[], some ⟨"*json.SyntaxError", "invalid character '<' looking for beginning of value"⟩⟩
    ⟨"*json.SyntaxError", "invalid character '<' looking for beginning of value"⟩ rfl rfl
  obtain ⟨-, -, hdiag, hemit, hout, -, -⟩ := h
  have hout2 : (main otherUnused MapOrder.asStored syntaxErrorWorld).output_csv
      = "Customer, DeviceType, Qty\nBeta, LINUX_WORKSTATION, 1\n" := hout.trans (by decide)
  refine ⟨rfl, hdiag.trans (by decide), hout2, ?_⟩
  rw [hemit, hout2]
  decide

/-- C6 fails on the code: for an organization named `ACME 100%` the report
accumulated holds the row `ACME 100%, WINDOWS_WORKSTATION, 1`, and the final
emit, which passes the report to `fmt.Printf` as the format, writes
`ACME 100%!,(MISSING) WINDOWS_WORKSTATION, 1` instead. -/
theorem emit_garbles_percent :
    (main otherUnused MapOrder.asStored percentWorld).output_csv
        = "Customer, DeviceType, Qty\nACME 100%, WINDOWS_WORKSTATION, 1\n"
      ∧ (main otherUnused MapOrder.asStored percentWorld).emitted
        = some "Customer, DeviceType, Qty\nACME 100%!,(MISSING) WINDOWS_WORKSTATION, 1\n" := by
  refine ⟨by decide, by decide⟩

/-- The final emit writes the report as it is when every call comes back and
the report holds no percent sign. -/
theorem emit_of_no_percent (other : OtherFormat) (ord : MapOrder) (w : World)
    (d0 : Decoded (List Customer)) (horg : w.organizations = some d0)
    (hdev : ∀ k, k < d0.dst.length → w.devices k ≠ none)
    (hpercent : '%' ∉ (main other ord w).output_csv.data) :
    (main other ord w).emitted = some (main other ord w).output_csv := by
  have h : (main other ord w).emitted = some (Printf other (main other ord w).output_csv []) := by
    rw [main_of_answers other ord w d0 horg hdev]
  rw [h, Printf_of_no_percent other _ hpercent]

/-- The formatter example of the specification: the header and the row of
`Acme` with 3 workstations are written as they are. -/
theorem emit_acme_row (other : OtherFormat) :
    Printf other (specHeader ++ specRow "Acme" ("WINDOWS_WORKSTATION", 3)) []
      = "Customer, DeviceType, Qty\nAcme, WINDOWS_WORKSTATION, 3\n" := by
  rw [Printf_of_no_percent other _ (by decide)]
  decide

/-- C10. The first request of `main` goes to `/v2/organizations`, the next ones
to `/v2/organization/<id>/devices` for the organizations in order (all of
them when every call comes back, the first `n` otherwise); the request
numbered `k` carries the reading numbered `k` of the clock as its date, and
its authorization is `NJ`, the access key, a colon and the signature of the
string to sign made of `GET`, that very date and that very path. -/
theorem requests_signed (other : OtherFormat) (ord : MapOrder) (w : World) :
    ∃ n, n ≤ (specCustomers w).length
      ∧ (main other ord w).requests
          = ({ method := "GET", url := "https://api.ninjarmm.com" ++ "/v2/organizations",
               authorization := "NJ " ++ (init w.getenv).1 ++ ":"
                 ++ getSignature (init w.getenv).2
                      (getStringToSign other "GET" "" "" (w.now 0) "/v2/organizations"),
               date := w.now 0 } : Request)
            :: ((specCustomers w).take n).enum.map (fun q =>
              ({ method := "GET",
                 url := "https://api.ninjarmm.com" ++ ("/v2/organization/" ++ fmtDecimal q.2.Id
                   ++ "/devices"),
                 authorization := "NJ " ++ (init w.getenv).1 ++ ":"
                   ++ getSignature (init w.getenv).2
                        (getStringToSign other "GET" "" "" (w.now (q.1 + 1))
                          ("/v2/organization/" ++ fmtDecimal q.2.Id ++ "/devices")),
                 date := w.now (q.1 + 1) } : Request))
      ∧ (w.organizations ≠ none
          → (∀ k, k < (specCustomers w).length → w.devices k ≠ none)
          → n = (specCustomers w).length) := by
  unfold main
  cases horg : w.organizations with
  | none =>
    refine ⟨0, by simp, ?_, fun h => absurd rfl h⟩
    simp only [callApi_result_none]
    rw [← horg, callApi_request]
    simp [specRequest]
  | some d0 =>
    simp only [callApi_result_some]
    have hc : specCustomers w = d0.dst := by simp [specCustomers, horg]
    obtain ⟨n, hn, hreq, hall⟩ := customerLoop_requests other ord w (init w.getenv).1
      (init w.getenv).2 d0.dst 0
    refine ⟨n, by rw [hc]; exact hn, ?_, ?_⟩
    · rw [hc]
      simp only [hreq, callApi_request]
      simp [specRequest, specDevicesPath, List.enum]
    · intro _ h
      rw [hc] at h ⊢
      exact hall (fun j hj => by simpa using h j hj)

/-- The mock API of the specification: the two requests sent, with the two
readings of the clock and the signatures of the two paths. -/
theorem requests_signed_witness :
    acmeWorld.organizations ≠ none
      ∧ (main otherUnused MapOrder.asStored acmeWorld).requests
        = [{ method := "GET", url := "https://api.ninjarmm.com/v2/organizations",
             authorization := "NJ <YOUR_ACCESS_KEY_ID>:95gv/gDO8mV76C1Z3suLACFyayY=",
             date := "Mon, 02 Jan 2006 15:04:00 +0000" },
           { method := "GET", url := "https://api.ninjarmm.com/v2/organization/1/devices",
             authorization := "NJ <YOUR_ACCESS_KEY_ID>:LrP0v9NQyPQ0QlPPP/Dm0XuKG0Y=",
             date := "Mon, 02 Jan 2006 15:04:01 +0000" }] := by
  obtain ⟨n, -, hreq, hall⟩ := requests_signed otherUnused MapOrder.asStored acmeWorld
  have hne : acmeWorld.organizations ≠ none := by simp [acmeWorld, exampleWorld]
  have hn : n = 1 := hall hne (fun k _ => by simp [acmeWorld, exampleWorld])
  subst hn
  refine ⟨hne, hreq.trans ?_⟩
  decide!

end NinjaRMM
